import Mathlib

/-!
Verification of the blip layout engine of `src/js/radar.js`
(`opensourceways/opensource-radar-web`).

The JavaScript source is shallowly embedded over the exact real numbers:
every numeric literal of the source is an exact rational, `Math.sin`,
`Math.cos`, `Math.hypot` and `Math.atan2` are the exact real functions
(`Real.sin`, `Real.cos`, `Real.sqrt` of the sum of squares, and
`Complex.arg`), and the two angle-normalisation `while` loops of
`clampToSector` are denoted by their closed forms (the loops add or
subtract `2 * pi` until the angle passes the bound; with `pi > 0` they
terminate and compute exactly the ceiling expressions used below).
In-place mutation of the transient blip wrapper objects is modelled by
explicit state passing over lists; the velocity fields `vx, vy` that
`resolveCollisions` adds and deletes again live in a separate transient
record `RBlip` that exists only inside that function.
-/

set_option maxRecDepth 8000

namespace Radar

open Real

/-- A parsed radar item, as produced by the data module (`RadarData`).
The layout engine treats it as read-only input. -/
structure Item where
  id : ℤ
  name : String
  quadrant : String
  ring : String
  movement : String
  score : Option ℚ
  description : String

/-- The transient per-render wrapper built in `renderFull` /
`renderQuadrant`: `{ x, y, item, ringIndex, angles, maxR, cx, cy }`.
Only `x` and `y` are ever written by the layout phases. -/
structure Blip where
  x : ℝ
  y : ℝ
  item : Item
  ringIndex : ℕ
  startAngle : ℝ
  endAngle : ℝ
  maxR : ℝ
  cx : ℝ
  cy : ℝ

/-- A blip together with the transient velocity fields `vx`, `vy` that
`resolveCollisions` attaches at its start and deletes at its end. -/
structure RBlip where
  b : Blip
  vx : ℝ
  vy : ℝ

/-- `const RING_FRACTIONS = [0.28, 0.48, 0.68, 0.88]`. -/
def RING_FRACTIONS : List ℝ := [0.28, 0.48, 0.68, 0.88]

/-- `RING_FRACTIONS[i]` (in-range access; the source only indexes with
`ringIndex` in `0..3` and `ringIndex - 1` for `ringIndex ≥ 1`). -/
noncomputable def ringFrac (i : ℕ) : ℝ := RING_FRACTIONS.getD i 0

/-- `ringIndex === 0 ? 0 : RING_FRACTIONS[ringIndex - 1] * maxR`. -/
noncomputable def innerRadius (ringIndex : ℕ) (maxR : ℝ) : ℝ :=
  if ringIndex = 0 then 0 else ringFrac (ringIndex - 1) * maxR

/-- `RING_FRACTIONS[ringIndex] * maxR`. -/
noncomputable def outerRadius (ringIndex : ℕ) (maxR : ℝ) : ℝ :=
  ringFrac ringIndex * maxR

/-- `const RINGS = ['Adopt', 'Trial', 'Assess', 'Hold']` (data module). -/
def RINGS : List String := ["Adopt", "Trial", "Assess", "Hold"]

/-- `RadarData.RINGS.indexOf(item.ring)`, with the `-1` (not found)
result modelled as `none`. -/
def ringIndexOf (r : String) : Option ℕ := RINGS.findIdx? (fun s => s == r)

/-- The `quadrantAngles` object literal of `renderFull` (lines 460-465)
read as an *own*-property lookup: the four table keys give their angle
pair, every other name gives `none`. The JavaScript lookup
`quadrantAngles[item.quadrant]` additionally resolves names inherited
from `Object.prototype` (`"toString"`, `"constructor"`, ...) to truthy
non-table values; that prototype-chain case is modelled separately by
`protoProp` and `groupStepE` below. -/
noncomputable def quadrantAngles (q : String) : Option (ℝ × ℝ) :=
  if q = "Techniques" then some (π, π * 1.5)
  else if q = "Tools" then some (π * 1.5, π * 2)
  else if q = "Platforms" then some (π * 0.5, π)
  else if q = "Languages & Frameworks" then some (0, π * 0.5)
  else none

/-- `seededRandom(seed)`: `const x = Math.sin(seed + 1) * 10000;
return x - Math.floor(x);`. -/
noncomputable def seededRandom (seed : ℝ) : ℝ :=
  Int.fract (Real.sin (seed + 1) * 10000)

/-- `Math.atan2(y, x)`, the angle of the point `(x, y)` in `(-π, π]`. -/
noncomputable def atan2 (y x : ℝ) : ℝ := Complex.arg ⟨x, y⟩

/-- Denotation of `while (angle < start) angle += Math.PI * 2`. -/
noncomputable def normLow (start angle : ℝ) : ℝ :=
  if angle < start then angle + 2 * π * ⌈(start - angle) / (2 * π)⌉ else angle

/-- Denotation of `while (angle > end) angle -= Math.PI * 2`. -/
noncomputable def normHigh (stop angle : ℝ) : ℝ :=
  if angle > stop then angle - 2 * π * ⌈(angle - stop) / (2 * π)⌉ else angle

/-- `if (v < lo) v = lo`: the lower clamp statement used twice in
`clampToSector`. -/
noncomputable def clampLo (lo v : ℝ) : ℝ := if v < lo then lo else v

/-- `if (v > hi) v = hi`: the upper clamp statement used twice in
`clampToSector`. -/
noncomputable def clampHi (hi v : ℝ) : ℝ := if v > hi then hi else v

/-- `clampToSector(blip)` of `src/js/radar.js` (lines 731-766): convert
to polar around `(cx, cy)`, normalise the angle into the sector range,
clamp angle and radius with the fixed pads, convert back. -/
noncomputable def clampToSector (blip : Blip) : Blip :=
  let s := if blip.endAngle < blip.startAngle then blip.endAngle else blip.startAngle
  let e := if blip.endAngle < blip.startAngle then blip.startAngle else blip.endAngle
  let innerR := innerRadius blip.ringIndex blip.maxR
  let outerR := outerRadius blip.ringIndex blip.maxR
  let margin : ℝ := 14
  let anglePadding : ℝ := 0.12
  let dx := blip.x - blip.cx
  let dy := blip.y - blip.cy
  let r0 := Real.sqrt (dx ^ 2 + dy ^ 2)
  let a0 := atan2 dy dx
  let a1 := normLow s a0
  let a2 := normHigh e a1
  let a4 := clampHi (e - anglePadding) (clampLo (s + anglePadding) a2)
  let minR := innerR + margin
  let maxRadius := outerR - margin
  let r2 := clampHi maxRadius (clampLo minR r0)
  { blip with x := blip.cx + r2 * Real.cos a4, y := blip.cy + r2 * Real.sin a4 }

/-- `getBlipPosition(item, ringIndex, angles, maxR, cx, cy)`
(lines 656-669). -/
noncomputable def getBlipPosition (item : Item) (ringIndex : ℕ)
    (startAngle endAngle maxR cx cy : ℝ) : ℝ × ℝ :=
  let innerR := innerRadius ringIndex maxR
  let outerR := outerRadius ringIndex maxR
  let margin : ℝ := 14
  let r := innerR + margin +
    seededRandom ((item.id : ℝ) * 7 + 3) * (outerR - innerR - margin * 2)
  let anglePad : ℝ := 0.15
  let angleRange := endAngle - startAngle - anglePad * 2
  let angle := startAngle + anglePad + seededRandom ((item.id : ℝ) * 13 + 7) * angleRange
  (cx + r * Real.cos angle, cy + r * Real.sin angle)

/-- `list.forEach((b, idx) => ...)` rebuilding the list: map with the
element index, starting at `n`. -/
def mapWithIdxFrom (f : ℕ → α → β) : ℕ → List α → List β
  | _, [] => []
  | n, a :: as => f n a :: mapWithIdxFrom f (n + 1) as

/-- Map with the element index, starting at `0`. -/
def mapWithIdx (f : ℕ → α → β) (l : List α) : List β := mapWithIdxFrom f 0 l

/-- The index pairs `(i, j)` with `i < j < n`, in the order of the nested
`for (i ...) for (j = i + 1 ...)` loops of the source. -/
def pairIdxs (n : ℕ) : List (ℕ × ℕ) :=
  (List.range n).flatMap (fun i => (List.range' (i + 1) (n - (i + 1))).map (fun j => (i, j)))

/-- The separation distance used for the pair `(i, j)` in the inner loop
of `resolveCollisions`: the center distance, except that an exactly
coincident pair is replaced by a seeded direction vector of length
`0.1` (`if (dist === 0) { ... }`, lines 691-697). -/
noncomputable def pairDist (a b : Blip) (i j : ℕ) : ℝ × ℝ × ℝ :=
  let dx0 := b.x - a.x
  let dy0 := b.y - a.y
  let dist0 := Real.sqrt (dx0 ^ 2 + dy0 ^ 2)
  if dist0 = 0 then
    let angle := seededRandom ((i : ℝ) * 17 + (j : ℝ) * 31) * π * 2
    let dx1 := Real.cos angle * 0.1
    let dy1 := Real.sin angle * 0.1
    (dx1, dy1, Real.sqrt (dx1 ^ 2 + dy1 ^ 2))
  else (dx0, dy0, dist0)

/-- One pair visit of the inner double loop of `resolveCollisions`
(lines 684-709): if the pair is closer than `minDist = 26`, add the
equal-and-opposite repulsion impulse to the two velocities. Only the
velocities change; the positions are untouched. -/
noncomputable def pairUpd (l : List RBlip) (ij : ℕ × ℕ) : List RBlip :=
  match l[ij.1]?, l[ij.2]? with
  | some a, some b =>
    let d := pairDist a.b b.b ij.1 ij.2
    let dx := d.1
    let dy := d.2.1
    let dist := d.2.2
    if dist < 26 then
      let overlap := 26 - dist
      let ux := dx / dist
      let uy := dy / dist
      let force := overlap * 0.5
      let a' : RBlip := { a with vx := a.vx - ux * force, vy := a.vy - uy * force }
      let b' : RBlip := { b with vx := b.vx + ux * force, vy := b.vy + uy * force }
      (l.set ij.1 a').set ij.2 b'
    else l
  | _, _ => l

/-- One `blips.forEach((b, idx) => ...)` pass of `resolveCollisions`
(lines 711-722): seeded jitter on the velocity, position integration,
damping, and the re-clamp of the position into the blip's sector. -/
noncomputable def blipStep (iter idx : ℕ) (rb : RBlip) : RBlip :=
  let vx1 := rb.vx + (seededRandom ((iter : ℝ) * 113 + (idx : ℝ) * 7) - 0.5) * 1.2
  let vy1 := rb.vy + (seededRandom ((iter : ℝ) * 131 + (idx : ℝ) * 11) - 0.5) * 1.2
  let x1 := rb.b.x + vx1 * 0.35
  let y1 := rb.b.y + vy1 * 0.35
  { b := clampToSector { rb.b with x := x1, y := y1 }, vx := vx1 * 0.85, vy := vy1 * 0.85 }

/-- One iteration of the `for (iter ...)` loop of `resolveCollisions`:
all pair impulses, then the per-blip jitter/integrate/damp/clamp pass. -/
noncomputable def relaxIter (l : List RBlip) (iter : ℕ) : List RBlip :=
  mapWithIdx (blipStep iter) ((pairIdxs l.length).foldl pairUpd l)

/-- `resolveCollisions(blips)` (lines 671-729): attach zero velocities,
run 150 relaxation iterations, delete the velocities again. -/
noncomputable def resolveCollisions (blips : List Blip) : List Blip :=
  ((List.range 150).foldl relaxIter (blips.map (fun b => ⟨b, 0, 0⟩))).map RBlip.b

/-- The radial outward push of `resolveCrossQuadrantOverlaps`
(lines 792-799), including the `Math.hypot(rx, ry) || 1` guard and the
re-clamp. -/
noncomputable def pushOut (centerX centerY push : ℝ) (b : Blip) : Blip :=
  let rx := b.x - centerX
  let ry := b.y - centerY
  let r0 := Real.sqrt (rx ^ 2 + ry ^ 2)
  let r := if r0 = 0 then 1 else r0
  clampToSector { b with x := b.x + rx / r * push, y := b.y + ry / r * push }

/-- One pair visit of the double loop of `resolveCrossQuadrantOverlaps`
(lines 778-801): same-quadrant pairs are skipped; a cross-quadrant pair
closer than `26` marks the pass as `moved` and pushes both blips
radially outward. -/
noncomputable def crossPairUpd (centerX centerY : ℝ) (st : List Blip × Bool)
    (ij : ℕ × ℕ) : List Blip × Bool :=
  match st.1[ij.1]?, st.1[ij.2]? with
  | some bi, some bj =>
    if bi.item.quadrant = bj.item.quadrant then st
    else
      let dx := bj.x - bi.x
      let dy := bj.y - bi.y
      let dist := Real.sqrt (dx ^ 2 + dy ^ 2)
      if dist < 26 then
        let push := (26 - dist) / 2 + 0.5
        (((st.1.set ij.1 (pushOut centerX centerY push bi)).set ij.2
            (pushOut centerX centerY push bj)), true)
      else st
  | _, _ => st

/-- One full pass over all pairs, returning the updated list and the
`moved` flag. -/
noncomputable def crossPass (centerX centerY : ℝ) (l : List Blip) : List Blip × Bool :=
  (pairIdxs l.length).foldl (crossPairUpd centerX centerY) (l, false)

/-- The outer `for (iter = 0; iter < iterations; iter++)` loop of
`resolveCrossQuadrantOverlaps` with its `if (!moved) break`. -/
noncomputable def crossGo (centerX centerY : ℝ) : ℕ → List Blip → List Blip
  | 0, l => l
  | n + 1, l =>
    let p := crossPass centerX centerY l
    if p.2 then crossGo centerX centerY n p.1 else p.1

/-- `resolveCrossQuadrantOverlaps(blips, centerX, centerY)`
(lines 772-805): at most 60 passes. -/
noncomputable def resolveCrossQuadrantOverlaps (blips : List Blip)
    (centerX centerY : ℝ) : List Blip :=
  crossGo centerX centerY 60 blips

/-- The label-zone snap of `resolveLabelOverlaps` (lines 816-825): a blip
strictly inside the band `(centerY - 12, centerY + 12)` is moved to
`labelTop - 2` or `labelBottom + 2` according to its side of the
mid-line. -/
noncomputable def snapY (centerY y : ℝ) : ℝ :=
  if centerY - 12 < y ∧ y < centerY + 12 then
    if y < centerY then centerY - 12 - 2 else centerY + 12 + 2
  else y

/-- The per-blip snap step of `resolveLabelOverlaps`: blips inside the
band get their `y` snapped and are re-clamped; others are untouched. -/
noncomputable def snapBlip (centerY : ℝ) (b : Blip) : Blip :=
  if centerY - 12 < b.y ∧ b.y < centerY + 12 then
    clampToSector { b with y := snapY centerY b.y }
  else b

/-- `resolveLabelOverlaps(blips, centerY)` (lines 811-830): snap every
blip out of the label band, then re-run `resolveCollisions` on the whole
list. -/
noncomputable def resolveLabelOverlaps (blips : List Blip) (centerY : ℝ) : List Blip :=
  resolveCollisions (blips.map (snapBlip centerY))

/-- The blip wrapper pushed into `quadrantGroups` by `renderFull`
(line 481). -/
noncomputable def mkBlip (item : Item) (ringIndex : ℕ)
    (startAngle endAngle maxR cx cy : ℝ) : Blip :=
  let p := getBlipPosition item ringIndex startAngle endAngle maxR cx cy
  ⟨p.1, p.2, item, ringIndex, startAngle, endAngle, maxR, cx, cy⟩

/-- Append a blip to the group of its quadrant key, creating the group
at the end on first use (JavaScript object insertion order). -/
def addToGroups : List (String × List Blip) → String → Blip → List (String × List Blip)
  | [], k, b => [(k, [b])]
  | (k', g) :: rest, k, b =>
    if k' = k then (k', g ++ [b]) :: rest else (k', g) :: addToGroups rest k b

/-- The body of the `items.forEach(...)` grouping loop of `renderFull`
(lines 472-482): items with an unknown quadrant or ring are skipped;
the rest are placed with `getBlipPosition` and grouped by quadrant. -/
noncomputable def groupStep (maxR cx cy : ℝ) (gs : List (String × List Blip))
    (item : Item) : List (String × List Blip) :=
  match quadrantAngles item.quadrant with
  | none => gs
  | some se =>
    match ringIndexOf item.ring with
    | none => gs
    | some ri => addToGroups gs item.quadrant (mkBlip item ri se.1 se.2 maxR cx cy)

/-- The grouping loop of `renderFull`: fold `groupStep` over the items
starting from the empty group table. -/
noncomputable def buildGroups (items : List Item) (maxR cx cy : ℝ) :
    List (String × List Blip) :=
  items.foldl (groupStep maxR cx cy) []

/-- The layout part of `renderFull(container, items, ...)`
(lines 459-495): the chart geometry from the size, grouping and initial
placement, the per-quadrant `resolveCollisions`, the cross-quadrant
phase on the flattened list, and the label-band phase. The returned
list holds the blips in group order, which is exactly the set (and
order) drawn by the final drawing loop, since the drawing loop reads
the same mutated blip objects. -/
noncomputable def renderFullLayout (items : List Item) (size : ℝ) : List Blip :=
  resolveLabelOverlaps
    (resolveCrossQuadrantOverlaps
      (((buildGroups items (size / 2 - 30) (size / 2) (size / 2)).map
        (fun g => resolveCollisions g.2)).flatten)
      (size / 2) (size / 2))
    (size / 2)

/-- The layout part of `renderQuadrant(container, items, quadrantName, ...)`
(lines 512-589): fixed 500x500 chart, quarter sector `[-π/2, 0]`,
a slightly different initial radial formula, one `resolveCollisions`
run. -/
noncomputable def renderQuadrantLayout (items : List Item) : List Blip :=
  let size : ℝ := 500
  let padding : ℝ := 40
  let maxR := size - padding * 2
  let cx := padding
  let cy := size - padding
  let blips := items.foldl
    (fun bs item =>
      match ringIndexOf item.ring with
      | none => bs
      | some ri =>
        let innerR := innerRadius ri maxR
        let outerR := outerRadius ri maxR
        let r := innerR + seededRandom ((item.id : ℝ) * 7 + 3) * (outerR - innerR - 12) + 6
        let angle := -90 + seededRandom ((item.id : ℝ) * 13 + 7) * 90
        let rad := angle * π / 180
        bs ++ [Blip.mk (cx + r * Real.cos rad) (cy + r * Real.sin rad) item ri
          (-(π / 2)) 0 maxR cx cy])
    []
  resolveCollisions blips

/-! ### Structural lemmas: what the relaxation phases leave untouched -/

/-- The immutable part of a blip wrapper: everything except the mutable
position `(x, y)`. -/
def bcore (b : Blip) : Item × ℕ × ℝ × ℝ × ℝ × ℝ × ℝ :=
  (b.item, b.ringIndex, b.startAngle, b.endAngle, b.maxR, b.cx, b.cy)

theorem bcore_clampToSector (b : Blip) : bcore (clampToSector b) = bcore b := rfl

theorem setOfGet {l : List α} {i : ℕ} {a : α} (h : l[i]? = some a) : l.set i a = l := by
  induction l generalizing i with
  | nil => simp at h
  | cons x xs ih =>
    cases i with
    | zero => simp_all
    | succ n => simpa using ih (by simpa using h)

theorem map_pairUpd (l : List RBlip) (ij : ℕ × ℕ) :
    (pairUpd l ij).map RBlip.b = l.map RBlip.b := by
  obtain ⟨i, j⟩ := ij
  unfold pairUpd
  cases h1 : l[i]? with
  | none => rfl
  | some a =>
    cases h2 : l[j]? with
    | none => rfl
    | some b =>
      by_cases hd : (pairDist a.b b.b i j).2.2 < 26
      · simp only [hd, if_pos]
        rw [List.map_set, List.map_set]
        rw [setOfGet, setOfGet]
        · simpa using congrArg (Option.map RBlip.b) h1
        · rw [List.getElem?_set]
          by_cases hij : i = j
          · subst hij
            simp [List.getElem?_eq_some_iff.1 h1|>.1]
            have := h2.symm.trans h1
            simp_all
          · simp only [hij, if_neg, if_false]
            simpa using congrArg (Option.map RBlip.b) h2
      · simp [hd]

theorem map_foldl_pairUpd (ps : List (ℕ × ℕ)) (l : List RBlip) :
    (ps.foldl pairUpd l).map RBlip.b = l.map RBlip.b := by
  induction ps generalizing l with
  | nil => rfl
  | cons p ps ih => rw [List.foldl_cons, ih, map_pairUpd]

theorem map_mapWithIdxFrom (f : ℕ → α → β) (g : β → γ) (g' : α → γ) (n : ℕ) (l : List α)
    (h : ∀ i a, g (f i a) = g' a) :
    (mapWithIdxFrom f n l).map g = l.map g' := by
  induction l generalizing n with
  | nil => rfl
  | cons x xs ih => simp [mapWithIdxFrom, h, ih]

theorem bcore_blipStep (iter idx : ℕ) (rb : RBlip) :
    bcore (blipStep iter idx rb).b = bcore rb.b := rfl

theorem map_bcore_relaxIter (l : List RBlip) (iter : ℕ) :
    (relaxIter l iter).map (fun rb => bcore rb.b) = l.map (fun rb => bcore rb.b) := by
  unfold relaxIter mapWithIdx
  rw [map_mapWithIdxFrom (blipStep iter) (fun rb => bcore rb.b) (fun rb => bcore rb.b) 0 _
    (fun i a => bcore_blipStep iter i a)]
  have := congrArg (List.map (fun b => bcore b)) (map_foldl_pairUpd (pairIdxs l.length) l)
  simpa [List.map_map, Function.comp] using this

theorem map_bcore_resolveCollisions (l : List Blip) :
    (resolveCollisions l).map bcore = l.map bcore := by
  unfold resolveCollisions
  have h : ∀ (ns : List ℕ) (st : List RBlip),
      (ns.foldl relaxIter st).map (fun rb => bcore rb.b) = st.map (fun rb => bcore rb.b) := by
    intro ns
    induction ns with
    | nil => intro st; rfl
    | cons n ns ih => intro st; rw [List.foldl_cons, ih, map_bcore_relaxIter]
  have := h (List.range 150) (l.map (fun b => ⟨b, 0, 0⟩))
  simpa [List.map_map, Function.comp] using this

theorem bcore_pushOut (centerX centerY push : ℝ) (b : Blip) :
    bcore (pushOut centerX centerY push b) = bcore b := rfl

theorem map_bcore_crossPairUpd (cX cY : ℝ) (st : List Blip × Bool) (ij : ℕ × ℕ) :
    (crossPairUpd cX cY st ij).1.map bcore = st.1.map bcore := by
  obtain ⟨i, j⟩ := ij
  unfold crossPairUpd
  cases h1 : st.1[i]? with
  | none => rfl
  | some bi =>
    cases h2 : st.1[j]? with
    | none => rfl
    | some bj =>
      by_cases hq : bi.item.quadrant = bj.item.quadrant
      · simp [hq]
      · by_cases hd : Real.sqrt ((bj.x - bi.x) ^ 2 + (bj.y - bi.y) ^ 2) < 26
        · simp only [hq, if_neg, hd, if_pos, not_false_iff]
          rw [List.map_set, List.map_set, bcore_pushOut, bcore_pushOut]
          rw [setOfGet, setOfGet]
          · simpa using congrArg (Option.map bcore) h1
          · rw [List.getElem?_set]
            by_cases hij : i = j
            · subst hij
              simp [List.getElem?_eq_some_iff.1 h1|>.1]
              have := h2.symm.trans h1
              simp_all
            · simp only [hij, if_neg, if_false]
              simpa using congrArg (Option.map bcore) h2
        · simp [hq, hd]

theorem crossGo_succ (cX cY : ℝ) (n : ℕ) (l : List Blip) :
    crossGo cX cY (n + 1) l =
      if (crossPass cX cY l).2 then crossGo cX cY n (crossPass cX cY l).1
      else (crossPass cX cY l).1 := rfl

theorem map_bcore_crossGo (cX cY : ℝ) (n : ℕ) (l : List Blip) :
    (crossGo cX cY n l).map bcore = l.map bcore := by
  induction n generalizing l with
  | zero => rfl
  | succ n ih =>
    rw [crossGo_succ]
    have hpass : ∀ (ps : List (ℕ × ℕ)) (st : List Blip × Bool),
        (ps.foldl (crossPairUpd cX cY) st).1.map bcore = st.1.map bcore := by
      intro ps
      induction ps with
      | nil => intro st; rfl
      | cons p ps ihp => intro st; rw [List.foldl_cons, ihp, map_bcore_crossPairUpd]
    have h1 : (crossPass cX cY l).1.map bcore = l.map bcore := by
      unfold crossPass; exact hpass _ _
    by_cases hm : (crossPass cX cY l).2
    · rw [if_pos hm, ih, h1]
    · rw [if_neg hm]; exact h1

theorem map_bcore_resolveCross (l : List Blip) (cX cY : ℝ) :
    (resolveCrossQuadrantOverlaps l cX cY).map bcore = l.map bcore :=
  map_bcore_crossGo cX cY 60 l

theorem bcore_snapBlip (cY : ℝ) (b : Blip) : bcore (snapBlip cY b) = bcore b := by
  unfold snapBlip
  split <;> rfl

theorem map_bcore_resolveLabel (l : List Blip) (cY : ℝ) :
    (resolveLabelOverlaps l cY).map bcore = l.map bcore := by
  unfold resolveLabelOverlaps
  rw [map_bcore_resolveCollisions, List.map_map]
  exact List.map_congr_left (fun b _ => bcore_snapBlip cY b)

theorem map_bcore_renderFullLayout (items : List Item) (size : ℝ) :
    (renderFullLayout items size).map bcore =
      ((buildGroups items (size / 2 - 30) (size / 2) (size / 2)).map
        (fun g => g.2)).flatten.map bcore := by
  unfold renderFullLayout
  rw [map_bcore_resolveLabel, map_bcore_resolveCross]
  rw [List.map_flatten, List.map_flatten, List.map_map, List.map_map]
  refine congrArg List.flatten (List.map_congr_left ?_)
  intro g _
  simp only [Function.comp_apply]
  exact map_bcore_resolveCollisions g.2

/-! ### The clamp as a projection into the sector/ring region -/

theorem le_clampLo (lo v : ℝ) : lo ≤ clampLo lo v := by
  unfold clampLo; split <;> linarith

theorem clampLo_le {lo hi v : ℝ} (h1 : lo ≤ hi) (h2 : v ≤ hi) : clampLo lo v ≤ hi := by
  unfold clampLo; split <;> linarith

theorem clampHi_le (hi v : ℝ) : clampHi hi v ≤ hi := by
  unfold clampHi; split <;> linarith

theorem le_clampHi {lo hi v : ℝ} (h1 : lo ≤ hi) (h2 : lo ≤ v) : lo ≤ clampHi hi v := by
  unfold clampHi; split <;> linarith

theorem clampLo_eq_self {lo v : ℝ} (h : lo ≤ v) : clampLo lo v = v := by
  unfold clampLo; rw [if_neg (not_lt.2 h)]

theorem clampHi_eq_self {hi v : ℝ} (h : v ≤ hi) : clampHi hi v = v := by
  unfold clampHi; rw [if_neg (not_lt.2 h)]

/-- The containment property of the spec: the blip's position, in polar
coordinates around the chart center, has its angle inside the padded
sector `[startAngle + 0.12, endAngle - 0.12]` and its radius inside the
ring band shrunk by the margin `14`. -/
def containedBlip (b : Blip) : Prop :=
  ∃ R A : ℝ,
    innerRadius b.ringIndex b.maxR + 14 ≤ R ∧
    R ≤ outerRadius b.ringIndex b.maxR - 14 ∧
    b.startAngle + 0.12 ≤ A ∧ A ≤ b.endAngle - 0.12 ∧
    b.x = b.cx + R * Real.cos A ∧ b.y = b.cy + R * Real.sin A

theorem clampToSector_contained (p : Blip)
    (hse : p.startAngle ≤ p.endAngle)
    (hang : p.startAngle + 0.12 ≤ p.endAngle - 0.12)
    (hband : innerRadius p.ringIndex p.maxR + 14 ≤ outerRadius p.ringIndex p.maxR - 14) :
    containedBlip (clampToSector p) := by
  have hswap : ¬(p.endAngle < p.startAngle) := not_lt.2 hse
  simp only [clampToSector, hswap, if_false, containedBlip]
  refine ⟨_, _, ?_, ?_, ?_, ?_, rfl, rfl⟩
  · exact le_clampHi hband (le_clampLo _ _)
  · exact clampHi_le _ _
  · exact le_clampHi hang (le_clampLo _ _)
  · exact clampHi_le _ _

theorem mem_mapWithIdxFrom {f : ℕ → α → β} {n : ℕ} {l : List α} {b : β}
    (hb : b ∈ mapWithIdxFrom f n l) : ∃ i a, a ∈ l ∧ b = f i a := by
  induction l generalizing n with
  | nil => simp [mapWithIdxFrom] at hb
  | cons x xs ih =>
    rcases List.mem_cons.1 hb with h | h
    · exact ⟨n, x, by simp, h⟩
    · obtain ⟨i, a, ha, hba⟩ := ih h
      exact ⟨i, a, by simp [ha], hba⟩

/-- Every blip coming out of `resolveCollisions` was last written by
`clampToSector`: the 150th iteration ends with the per-blip re-clamp. -/
theorem mem_resolveCollisions_clamp {l : List Blip} {b : Blip}
    (hb : b ∈ resolveCollisions l) : ∃ p : Blip, b = clampToSector p := by
  unfold resolveCollisions at hb
  rw [show (150 : ℕ) = 149 + 1 from rfl, List.range_succ, List.foldl_append] at hb
  rw [List.foldl_cons, List.foldl_nil] at hb
  rw [show relaxIter (List.foldl relaxIter (List.map (fun b => ⟨b, 0, 0⟩) l)
      (List.range 149)) 149 = mapWithIdx (blipStep 149)
      ((pairIdxs (List.foldl relaxIter (List.map (fun b => ⟨b, 0, 0⟩) l)
        (List.range 149)).length).foldl pairUpd
        (List.foldl relaxIter (List.map (fun b => ⟨b, 0, 0⟩) l) (List.range 149)))
    from rfl] at hb
  obtain ⟨rb, hrb, hrbb⟩ := List.mem_map.1 hb
  obtain ⟨i, a, _, hfa⟩ := mem_mapWithIdxFrom hrb
  exact ⟨_, by rw [← hrbb, hfa]; rfl⟩

/-! ### The initial blips and their geometry invariants -/

theorem bcore_inj {a b : Blip} (h : bcore a = bcore b) :
    a.item = b.item ∧ a.ringIndex = b.ringIndex ∧ a.startAngle = b.startAngle ∧
    a.endAngle = b.endAngle ∧ a.maxR = b.maxR ∧ a.cx = b.cx ∧ a.cy = b.cy := by
  unfold bcore at h
  simpa using h

theorem quadrantAngles_cases {q : String} {s e : ℝ} (h : quadrantAngles q = some (s, e)) :
    (s = π ∧ e = π * 1.5) ∨ (s = π * 1.5 ∧ e = π * 2) ∨
    (s = π * 0.5 ∧ e = π) ∨ (s = 0 ∧ e = π * 0.5) := by
  unfold quadrantAngles at h
  split_ifs at h <;>
    first
      | (rw [Option.some.injEq, Prod.mk.injEq] at h
         first
           | exact Or.inl ⟨h.1.symm, h.2.symm⟩
           | exact Or.inr (Or.inl ⟨h.1.symm, h.2.symm⟩)
           | exact Or.inr (Or.inr (Or.inl ⟨h.1.symm, h.2.symm⟩))
           | exact Or.inr (Or.inr (Or.inr ⟨h.1.symm, h.2.symm⟩)))
      | exact absurd h (by simp)

/-- Every quadrant sector of the table is a quarter turn wide: the
bounds are ordered, the padded window is nonempty, and the width is at
most a full turn. -/
theorem sector_pads {q : String} {s e : ℝ} (h : quadrantAngles q = some (s, e)) :
    s ≤ e ∧ s + 0.12 ≤ e - 0.12 ∧ e - s ≤ 2 * π := by
  have hπ := Real.pi_gt_three
  rcases quadrantAngles_cases h with ⟨rfl, rfl⟩ | ⟨rfl, rfl⟩ | ⟨rfl, rfl⟩ | ⟨rfl, rfl⟩ <;>
    refine ⟨by nlinarith, by nlinarith, by nlinarith⟩

theorem ringIndexOf_lt {r : String} {ri : ℕ} (h : ringIndexOf r = some ri) : ri < 4 := by
  unfold ringIndexOf at h
  exact (List.findIdx?_eq_some_iff_findIdx_eq.1 h).1

/-- With `maxR ≥ 140` every ring band is at least `28` wide, so the band
shrunk by the margin `14` on both sides is nonempty. -/
theorem band_ok {ri : ℕ} (hri : ri < 4) {maxR : ℝ} (h : 140 ≤ maxR) :
    innerRadius ri maxR + 14 ≤ outerRadius ri maxR - 14 := by
  interval_cases ri <;>
    simp only [innerRadius, outerRadius, ringFrac, RING_FRACTIONS, List.getD] <;>
    norm_num <;> linarith

theorem mem_addToGroups_blips {gs : List (String × List Blip)} {k : String} {b : Blip}
    {g : String × List Blip} (hg : g ∈ addToGroups gs k b) {b' : Blip} (hb : b' ∈ g.2) :
    b' = b ∨ ∃ g' ∈ gs, b' ∈ g'.2 := by
  induction gs with
  | nil =>
    simp only [addToGroups, List.mem_singleton] at hg
    subst hg
    simp only [List.mem_singleton] at hb
    exact Or.inl hb
  | cons hd tl ih =>
    unfold addToGroups at hg
    split_ifs at hg with hk
    · rcases List.mem_cons.1 hg with rfl | hgtl
      · rcases List.mem_append.1 hb with h | h
        · exact Or.inr ⟨hd, List.mem_cons_self _ _, h⟩
        · exact Or.inl (List.mem_singleton.1 h)
      · exact Or.inr ⟨g, List.mem_cons_of_mem _ hgtl, hb⟩
    · rcases List.mem_cons.1 hg with rfl | hgtl
      · exact Or.inr ⟨hd, List.mem_cons_self _ _, hb⟩
      · rcases ih hgtl with h | ⟨g', hg', hb'⟩
        · exact Or.inl h
        · exact Or.inr ⟨g', List.mem_cons_of_mem _ hg', hb'⟩

theorem groupStep_none {maxR cx cy : ℝ} {gs : List (String × List Blip)} {it : Item}
    (h : quadrantAngles it.quadrant = none) : groupStep maxR cx cy gs it = gs := by
  unfold groupStep
  rw [h]

theorem groupStep_noRing {maxR cx cy : ℝ} {gs : List (String × List Blip)} {it : Item}
    {se : ℝ × ℝ} (h1 : quadrantAngles it.quadrant = some se)
    (h2 : ringIndexOf it.ring = none) : groupStep maxR cx cy gs it = gs := by
  unfold groupStep
  rw [h1, h2]

theorem groupStep_some {maxR cx cy : ℝ} {gs : List (String × List Blip)} {it : Item}
    {se : ℝ × ℝ} {ri : ℕ} (h1 : quadrantAngles it.quadrant = some se)
    (h2 : ringIndexOf it.ring = some ri) :
    groupStep maxR cx cy gs it = addToGroups gs it.quadrant (mkBlip it ri se.1 se.2 maxR cx cy) := by
  unfold groupStep
  rw [h1, h2]

/-- Every blip of every group built by the grouping loop of
`renderFull` is `mkBlip` of a valid item of the input list. -/
theorem buildGroups_forall {items : List Item} {maxR cx cy : ℝ} (P : Blip → Prop)
    (hP : ∀ item ∈ items, ∀ (ri : ℕ) (s e : ℝ),
      quadrantAngles item.quadrant = some (s, e) → ringIndexOf item.ring = some ri →
      P (mkBlip item ri s e maxR cx cy)) :
    ∀ g ∈ buildGroups items maxR cx cy, ∀ b ∈ g.2, P b := by
  unfold buildGroups
  suffices h : ∀ (its : List Item) (acc : List (String × List Blip)),
      (∀ item ∈ its, ∀ (ri : ℕ) (s e : ℝ),
        quadrantAngles item.quadrant = some (s, e) → ringIndexOf item.ring = some ri →
        P (mkBlip item ri s e maxR cx cy)) →
      (∀ g ∈ acc, ∀ b ∈ g.2, P b) →
      ∀ g ∈ its.foldl (groupStep maxR cx cy) acc, ∀ b ∈ g.2, P b by
    exact h items [] hP (by simp)
  intro its
  induction its with
  | nil => intro acc _ hacc; simpa using hacc
  | cons it its ih =>
    intro acc hits hacc
    rw [List.foldl_cons]
    cases hq : quadrantAngles it.quadrant with
    | none =>
      rw [groupStep_none hq]
      exact ih acc (fun i hi => hits i (List.mem_cons_of_mem _ hi)) hacc
    | some se =>
      cases hr : ringIndexOf it.ring with
      | none =>
        rw [groupStep_noRing hq hr]
        exact ih acc (fun i hi => hits i (List.mem_cons_of_mem _ hi)) hacc
      | some ri =>
        rw [groupStep_some hq hr]
        refine ih _ (fun i hi => hits i (List.mem_cons_of_mem _ hi)) ?_
        intro g hg b hb
        rcases mem_addToGroups_blips hg hb with rfl | ⟨g', hg', hb'⟩
        · exact hits it (List.mem_cons_self _ _) ri se.1 se.2 hq hr
        · exact hacc g' hg' b hb'

/-- Geometry invariant carried by every blip the full-radar pipeline
works on: its sector comes from the quadrant table, its ring index from
the ring list, and its chart geometry from the chart size. -/
def goodGeom (size : ℝ) (b : Blip) : Prop :=
  quadrantAngles b.item.quadrant = some (b.startAngle, b.endAngle) ∧
  (∃ ri, ringIndexOf b.item.ring = some ri ∧ b.ringIndex = ri) ∧
  b.maxR = size / 2 - 30 ∧ b.cx = size / 2 ∧ b.cy = size / 2

theorem goodGeom_of_bcore_eq {items : List Item} {size : ℝ} {a b : Blip}
    (h : bcore a = bcore b) (ha : a.item ∈ items ∧ goodGeom size a) :
    b.item ∈ items ∧ goodGeom size b := by
  obtain ⟨h1, h2, h3, h4, h5, h6, h7⟩ := bcore_inj h
  obtain ⟨g0, g1, ⟨ri, g2, g2'⟩, g3, g4, g5⟩ := ha
  exact ⟨by rw [← h1]; exact g0, by rw [← h1, ← h3, ← h4]; exact g1,
    ⟨ri, by rw [← h1]; exact g2, by rw [← h2]; exact g2'⟩,
    by rw [← h5]; exact g3, by rw [← h6]; exact g4, by rw [← h7]; exact g5⟩

/-- Every blip of the finished full-radar layout carries an item of the
input list and the geometry the grouping loop gave it: its sector from
the quadrant table, its ring index from the ring list, the chart
geometry from the size. -/
theorem goodGeom_renderFullLayout {items : List Item} {size : ℝ} {b : Blip}
    (hb : b ∈ renderFullLayout items size) : b.item ∈ items ∧ goodGeom size b := by
  have hmem : bcore b ∈ (renderFullLayout items size).map bcore := List.mem_map_of_mem _ hb
  rw [map_bcore_renderFullLayout] at hmem
  obtain ⟨b0, hb0, hcore⟩ := List.mem_map.1 hmem
  obtain ⟨gl, hgl, hb0gl⟩ := List.mem_flatten.1 hb0
  obtain ⟨g, hg, rfl⟩ := List.mem_map.1 hgl
  have h0 : b0.item ∈ items ∧ goodGeom size b0 := by
    refine buildGroups_forall (fun b1 => b1.item ∈ items ∧ goodGeom size b1) ?_ g hg b0 hb0gl
    intro item hitem ri s e hq hr
    exact ⟨hitem, hq, ⟨ri, hr, rfl⟩, rfl, rfl, rfl⟩
  exact goodGeom_of_bcore_eq hcore h0

/-- The full-radar pipeline ends inside `resolveLabelOverlaps` with a
`resolveCollisions` run, so every blip of the finished layout was last
written by `clampToSector`. -/
theorem renderFullLayout_clamp_image {items : List Item} {size : ℝ} {b : Blip}
    (hb : b ∈ renderFullLayout items size) : ∃ p : Blip, b = clampToSector p := by
  have hb' : b ∈ resolveCollisions
      ((resolveCrossQuadrantOverlaps
        (((buildGroups items (size / 2 - 30) (size / 2) (size / 2)).map
          (fun g => resolveCollisions g.2)).flatten) (size / 2) (size / 2)).map
        (snapBlip (size / 2))) := hb
  exact mem_resolveCollisions_clamp hb'

/-! ### A degenerate chart: `maxR = 50` pins ring-0 blips to the center

With `size = 160` the chart has `maxR = 50`, so ring 0 spans
`[0, 0.28 * 50] = [0, 14]`; the clamp bounds are `minR = 14` and
`maxRadius = 0.28 * 50 - 14 = 0`, and the sequential radius clamps of
`clampToSector` send every radius to `14` and then to `0`: every ring-0
blip is clamped to the exact chart center. -/

theorem clampToSector_center {p : Blip} (h0 : p.ringIndex = 0) (hm : p.maxR = 50) :
    (clampToSector p).x = p.cx ∧ (clampToSector p).y = p.cy := by
  have hin : innerRadius p.ringIndex p.maxR = 0 := by rw [h0]; simp [innerRadius]
  have hout : outerRadius p.ringIndex p.maxR = 14 := by
    rw [h0, hm]; unfold outerRadius ringFrac RING_FRACTIONS
    norm_num
  have hr2 : ∀ v : ℝ,
      clampHi (outerRadius p.ringIndex p.maxR - 14)
        (clampLo (innerRadius p.ringIndex p.maxR + 14) v) = 0 := by
    intro v
    rw [hin, hout]
    have h14 : (0:ℝ) + 14 ≤ clampLo (0 + 14) v := le_clampLo _ _
    unfold clampHi
    rw [if_pos (by linarith : clampLo ((0:ℝ) + 14) v > 14 - 14)]
    norm_num
  constructor
  · simp only [clampToSector]
    rw [hr2]
    ring
  · simp only [clampToSector]
    rw [hr2]
    ring

/-- The item of the degenerate-chart counterexample run: a single valid
item in quadrant `Tools`, ring `Adopt`. -/
def itemT : Item := ⟨1, "ExampleTool", "Tools", "Adopt", "none", none, ""⟩

theorem run160_center : ∀ b ∈ renderFullLayout [itemT] 160,
    b.x = 80 ∧ b.y = 80 ∧ b.ringIndex = 0 ∧ b.maxR = 50 ∧ b.cx = 80 ∧ b.cy = 80 := by
  intro b hb
  obtain ⟨hitem, hq, ⟨ri, hrIdx, hriEq⟩, hmaxR, hcx, hcy⟩ := goodGeom_renderFullLayout hb
  have hit : b.item = itemT := by simpa using hitem
  have hri0 : b.ringIndex = 0 := by
    rw [hit] at hrIdx
    have hAdopt : ringIndexOf itemT.ring = some 0 := rfl
    rw [hAdopt] at hrIdx
    rw [hriEq]
    exact (Option.some.injEq _ _ ▸ hrIdx :).symm
  have hb50 : b.maxR = 50 := by rw [hmaxR]; norm_num
  have hbcx : b.cx = 80 := by rw [hcx]; norm_num
  have hbcy : b.cy = 80 := by rw [hcy]; norm_num
  obtain ⟨p, hp⟩ := renderFullLayout_clamp_image hb
  have hcorep : bcore p = bcore b := by rw [hp]; exact bcore_clampToSector p
  obtain ⟨_, hpri, _, _, hpmaxR, hpcx, hpcy⟩ := bcore_inj hcorep
  have hc := clampToSector_center (p := p) (by rw [hpri, hri0]) (by rw [hpmaxR, hb50])
  refine ⟨?_, ?_, hri0, hb50, hbcx, hbcy⟩
  · rw [hp, hc.1, hpcx, hbcx]
  · rw [hp, hc.2, hpcy, hbcy]

theorem run160_length : (renderFullLayout [itemT] 160).length = 1 := by
  have h := congrArg List.length (map_bcore_renderFullLayout [itemT] 160)
  simp only [List.length_map] at h
  rw [h]
  rw [show buildGroups [itemT] (160 / 2 - 30) (160 / 2) (160 / 2) =
      [("Tools", [mkBlip itemT 0 (π * 1.5) (π * 2) (160 / 2 - 30) (160 / 2) (160 / 2)])]
    from rfl]
  simp

/-! ### Claim C3: containment after layout -/

theorem layout_contained_aux (items : List Item) (size : ℝ) (hsize : 340 ≤ size) :
    ∀ b ∈ renderFullLayout items size, containedBlip b := by
  intro b hb
  obtain ⟨p, rfl⟩ := renderFullLayout_clamp_image hb
  obtain ⟨hq, ⟨ri, hrIdx, hriEq⟩, hmaxR, _, _⟩ := (goodGeom_renderFullLayout hb).2
  obtain ⟨hpi, hpri, hps, hpe, hpm, _, _⟩ := bcore_inj (bcore_clampToSector p)
  rw [hpi, hps, hpe] at hq
  have hsec := sector_pads hq
  have h4 : p.ringIndex < 4 := by
    have : p.ringIndex = ri := by rw [← hpri]; exact hriEq
    rw [this]; exact ringIndexOf_lt hrIdx
  have hband : innerRadius p.ringIndex p.maxR + 14 ≤ outerRadius p.ringIndex p.maxR - 14 := by
    have hm : p.maxR = size / 2 - 30 := by rw [← hpm]; exact hmaxR
    rw [hm]; exact band_ok h4 (by linarith)
  exact clampToSector_contained p hsec.1 hsec.2.1 hband

/-- Claim C3, amended: after the full layout completes (per-group
relaxation, cross-group relaxation, label-band exclusion), every placed
blip's polar angle relative to the chart center lies within its
section's `[startAngle + 0.12, endAngle - 0.12]` and its radius within
its ring band's `[innerRadius + 14, outerRadius - 14]` — provided the
chart is large enough that every ring band is at least twice the margin
wide (`size ≥ 340`, i.e. `maxR ≥ 140`). For smaller charts the padded
band can be empty and the property fails (see the counterexample). -/
theorem containment_after_layout (items : List Item) (size : ℝ) (hsize : 340 ≤ size) :
    ∀ b ∈ renderFullLayout items size, containedBlip b :=
  layout_contained_aux items size hsize

/-- Witness for `containment_after_layout` at the reference chart size
`860` with one concrete item. -/
theorem containment_after_layout_witness :
    (340 : ℝ) ≤ 860 ∧ ∀ b ∈ renderFullLayout [itemT] 860, containedBlip b :=
  ⟨by norm_num, containment_after_layout [itemT] 860 (by norm_num)⟩

/-- Claim C3, counterexample: the claim as stated (containment for
every layout, with no condition on the chart size) is false. At
`size = 160` (a 240-pixel-wide window) the chart has `maxR = 50`, ring
0 spans `[0, 14]`, its margin-shrunk band `[14, 0]` is empty, and the
clamp pins the single placed blip to the exact chart center, radius
`0`: no radius can lie in the empty band. -/
theorem containment_small_chart_cex :
    ¬ (∀ b ∈ renderFullLayout [itemT] 160, containedBlip b) := by
  intro hall
  have hne : renderFullLayout [itemT] 160 ≠ [] := by
    intro h
    have hl := run160_length
    rw [h] at hl
    simp at hl
  obtain ⟨b, hb⟩ := List.exists_mem_of_ne_nil _ hne
  obtain ⟨hx, hy, hri, hmr, hcx, hcy⟩ := run160_center b hb
  obtain ⟨R, A, h1, h2, _⟩ := hall b hb
  rw [hri, hmr] at h1 h2
  have e1 : innerRadius 0 50 = 0 := by simp [innerRadius]
  have e2 : outerRadius 0 50 = 14 := by
    unfold outerRadius ringFrac RING_FRACTIONS; norm_num
  rw [e1] at h1
  rw [e2] at h2
  linarith

/-! ### Claim C7: the label-band exclusion -/

/-- Claim C7, amended: during phase 3 every blip whose vertical
coordinate falls strictly inside the band `(centerY - 12, centerY + 12)`
is snapped to just above (`centerY - 14`) or just below (`centerY + 14`)
the band according to its side of the mid-line, re-clamped, and the
relaxer is re-run — on the union of all blips, not per group.
Immediately after the snap no blip's `y` lies strictly inside the band;
but the re-clamp and the relaxer re-run can move blips back into the
band, so the original claim's final zero-in-band property does not hold
(see the counterexample). -/
theorem label_band_snap :
    (∀ (blips : List Blip) (centerY : ℝ),
      resolveLabelOverlaps blips centerY =
        resolveCollisions (blips.map (snapBlip centerY))) ∧
    (∀ centerY y : ℝ,
      ¬(centerY - 12 < snapY centerY y ∧ snapY centerY y < centerY + 12)) := by
  constructor
  · intro blips centerY; rfl
  · intro cY y
    unfold snapY
    split_ifs with h1 h2
    · intro hc; linarith [hc.1]
    · intro hc; linarith [hc.2]
    · exact h1

/-- Claim C7, counterexample: at chart size `160` the single placed
blip ends the layout at the exact chart center `(80, 80)`, and its
vertical coordinate `80` lies strictly inside the label-exclusion band
`(80 - 12, 80 + 12)`: the "zero placed blips inside the band after the
full layout" part of the claim is false. -/
theorem label_band_cex :
    ∃ b ∈ renderFullLayout [itemT] 160, 160 / 2 - 12 < b.y ∧ b.y < 160 / 2 + 12 := by
  have hne : renderFullLayout [itemT] 160 ≠ [] := by
    intro h
    have hl := run160_length
    rw [h] at hl
    simp at hl
  obtain ⟨b, hb⟩ := List.exists_mem_of_ne_nil _ hne
  obtain ⟨hx, hy, _⟩ := run160_center b hb
  exact ⟨b, hb, by rw [hy]; norm_num, by rw [hy]; norm_num⟩

/-! ### Claim C8: the layout never writes to the input items -/

theorem map_item_of_map_bcore {l l' : List Blip} (h : l.map bcore = l'.map bcore) :
    l.map Blip.item = l'.map Blip.item := by
  have h2 := congrArg (List.map Prod.fst) h
  simpa [List.map_map, Function.comp] using h2

/-- The `Bool` test of `renderQuadrant`: the item's ring is one of the
canonical ring names (`RINGS.indexOf(item.ring) >= 0`). -/
def ringKnown (it : Item) : Bool := (ringIndexOf it.ring).isSome

theorem renderQuadrantLayout_items (items : List Item) :
    (renderQuadrantLayout items).map Blip.item = items.filter ringKnown := by
  unfold renderQuadrantLayout
  rw [map_item_of_map_bcore (map_bcore_resolveCollisions _)]
  suffices h : ∀ (its : List Item) (acc : List Blip),
      (its.foldl
        (fun bs item =>
          match ringIndexOf item.ring with
          | none => bs
          | some ri =>
            bs ++ [Blip.mk ((40:ℝ) + (innerRadius ri (500 - 40 * 2) +
                seededRandom ((item.id : ℝ) * 7 + 3) *
                  (outerRadius ri (500 - 40 * 2) - innerRadius ri (500 - 40 * 2) - 12) + 6) *
                Real.cos ((-90 + seededRandom ((item.id : ℝ) * 13 + 7) * 90) * π / 180))
              ((500 - 40) + (innerRadius ri (500 - 40 * 2) +
                seededRandom ((item.id : ℝ) * 7 + 3) *
                  (outerRadius ri (500 - 40 * 2) - innerRadius ri (500 - 40 * 2) - 12) + 6) *
                Real.sin ((-90 + seededRandom ((item.id : ℝ) * 13 + 7) * 90) * π / 180))
              item ri (-(π / 2)) 0 (500 - 40 * 2) 40 (500 - 40)]) acc).map Blip.item =
      acc.map Blip.item ++ its.filter ringKnown by
    simpa using h items []
  intro its
  induction its with
  | nil => intro acc; simp
  | cons it its ih =>
    intro acc
    rw [List.foldl_cons, List.filter_cons]
    cases hr : ringIndexOf it.ring with
    | none =>
      have hk : ringKnown it = false := by unfold ringKnown; rw [hr]; rfl
      rw [hk]
      simpa using ih acc
    | some ri =>
      have hk : ringKnown it = true := by unfold ringKnown; rw [hr]; rfl
      rw [hk]
      simp only [if_true]
      rw [ih]
      simp

/-- Claim C8: the layout pipelines are read-only on the input items.
Every relaxation phase, and the full `renderFull` and `renderQuadrant`
layouts, leave the `item` component of every blip wrapper unchanged
(only the wrapper's `x`, `y` — and, inside `resolveCollisions`, the
transient `vx`, `vy` of the `RBlip` wrapper, which the `Blip` result
type no longer carries — are written): the item sequence of the output
always equals the item sequence of the input, and the drawn items are
exactly the valid input items. -/
theorem layout_items_readonly :
    (∀ bs : List Blip, (resolveCollisions bs).map Blip.item = bs.map Blip.item) ∧
    (∀ (bs : List Blip) (cX cY : ℝ),
      (resolveCrossQuadrantOverlaps bs cX cY).map Blip.item = bs.map Blip.item) ∧
    (∀ (bs : List Blip) (cY : ℝ),
      (resolveLabelOverlaps bs cY).map Blip.item = bs.map Blip.item) ∧
    (∀ (items : List Item) (size : ℝ),
      (renderFullLayout items size).map Blip.item =
        ((buildGroups items (size / 2 - 30) (size / 2) (size / 2)).map
          (fun g => g.2)).flatten.map Blip.item) ∧
    (∀ items : List Item,
      (renderQuadrantLayout items).map Blip.item = items.filter ringKnown) :=
  ⟨fun bs => map_item_of_map_bcore (map_bcore_resolveCollisions bs),
   fun bs cX cY => map_item_of_map_bcore (map_bcore_resolveCross bs cX cY),
   fun bs cY => map_item_of_map_bcore (map_bcore_resolveLabel bs cY),
   fun items size => map_item_of_map_bcore (map_bcore_renderFullLayout items size),
   renderQuadrantLayout_items⟩

/-! ### Claim C9: the relaxer is total on coincident blips -/

/-- Claim C9: `resolveCollisions` never divides by a zero distance.
For a pair of blips at exactly the same position the guarded distance
is the seeded substitute `0.1` (first conjunct), and for every pair the
distance fed to the division is strictly positive (second conjunct), so
over the exact reals every velocity and position of the 150 iterations
is a well-defined real number. The third conjunct shows the degenerate
situation is reachable: two items with the same id (and same quadrant
and ring) get exactly coincident initial placements whatever their
names, movements, scores or descriptions. -/
theorem relaxer_total_on_coincident :
    (∀ (a : Blip) (i j : ℕ), (pairDist a a i j).2.2 = 0.1) ∧
    (∀ (a b : Blip) (i j : ℕ), 0 < (pairDist a b i j).2.2) ∧
    (∀ (i : ℤ) (q r n1 n2 m1 m2 d1 d2 : String) (s1 s2 : Option ℚ)
       (ri : ℕ) (sA eA maxR cx cy : ℝ),
      getBlipPosition ⟨i, n1, q, r, m1, s1, d1⟩ ri sA eA maxR cx cy =
        getBlipPosition ⟨i, n2, q, r, m2, s2, d2⟩ ri sA eA maxR cx cy) := by
  have key : ∀ (a : Blip) (i j : ℕ), (pairDist a a i j).2.2 = 0.1 := by
    intro a i j
    unfold pairDist
    rw [if_pos (by simp [Real.sqrt_eq_zero'])]
    have harg : Real.cos (seededRandom ((i : ℝ) * 17 + (j : ℝ) * 31) * π * 2) ^ 2 * 0.1 ^ 2 +
        Real.sin (seededRandom ((i : ℝ) * 17 + (j : ℝ) * 31) * π * 2) ^ 2 * 0.1 ^ 2 =
        (0.1 : ℝ) ^ 2 := by
      have hcs := Real.sin_sq_add_cos_sq (seededRandom ((i : ℝ) * 17 + (j : ℝ) * 31) * π * 2)
      nlinarith [hcs]
    simp only [mul_pow]
    rw [harg, Real.sqrt_sq (by norm_num : (0.1:ℝ) ≥ 0)]
  refine ⟨key, ?_, fun i q r n1 n2 m1 m2 d1 d2 s1 s2 ri sA eA maxR cx cy => rfl⟩
  intro a b i j
  unfold pairDist
  by_cases h0 : Real.sqrt ((b.x - a.x) ^ 2 + (b.y - a.y) ^ 2) = 0
  · rw [if_pos h0]
    have h2 : Real.cos (seededRandom ((i : ℝ) * 17 + (j : ℝ) * 31) * π * 2) ^ 2 * 0.1 ^ 2 +
        Real.sin (seededRandom ((i : ℝ) * 17 + (j : ℝ) * 31) * π * 2) ^ 2 * 0.1 ^ 2 =
        (0.1 : ℝ) ^ 2 := by
      have hcs := Real.sin_sq_add_cos_sq (seededRandom ((i : ℝ) * 17 + (j : ℝ) * 31) * π * 2)
      nlinarith [hcs]
    simp only [mul_pow]
    rw [h2, Real.sqrt_sq (by norm_num : (0.1:ℝ) ≥ 0)]
    norm_num
  · rw [if_neg h0]
    exact lt_of_le_of_ne (Real.sqrt_nonneg _) (Ne.symm h0)

/-! ### Claim C6: unknown quadrant or ring names are silently skipped -/

/-- The validity test of the grouping loop of `renderFull`: the item's
quadrant is in the angle table and its ring in the ring list. -/
noncomputable def validItem (it : Item) : Bool :=
  (quadrantAngles it.quadrant).isSome && (ringIndexOf it.ring).isSome

theorem groupStep_invalid {u : Item} (hu : validItem u = false)
    (gs : List (String × List Blip)) (maxR cx cy : ℝ) :
    groupStep maxR cx cy gs u = gs := by
  cases hq : quadrantAngles u.quadrant with
  | none => exact groupStep_none hq
  | some se =>
    cases hr : ringIndexOf u.ring with
    | none => exact groupStep_noRing hq hr
    | some ri =>
      exfalso
      unfold validItem at hu
      rw [hq, hr] at hu
      simp at hu

/-- The own property names of `Object.prototype`. On a plain object
literal such as `quadrantAngles` (line 460) or `quadrantGroups`
(line 470), looking up any of these names misses the object's own keys
but resolves through the prototype chain to an inherited function (or,
for `__proto__`, an object) — a truthy, non-array, non-table value. -/
def protoProp (s : String) : Bool :=
  (["constructor", "hasOwnProperty", "isPrototypeOf",
    "propertyIsEnumerable", "toLocaleString", "toString", "valueOf",
    "__defineGetter__", "__defineSetter__", "__lookupGetter__",
    "__lookupSetter__", "__proto__"] : List String).contains s

/-- The condition under which the grouping loop of `renderFull` throws:
the quadrant name hits an inherited `Object.prototype` property (so
`angles` is truthy and `if (!angles) return` does not fire) and the
ring is known (so `if (ringIndex < 0) return` does not fire either),
reaching `quadrantGroups[key].push(...)` where `quadrantGroups[key]` is
again the inherited non-array value. -/
noncomputable def crashItem (it : Item) : Bool :=
  protoProp it.quadrant && (ringIndexOf it.ring).isSome

/-- The body of the `items.forEach(...)` grouping loop of `renderFull`
(lines 472-482) with the JavaScript object-lookup semantics of
`quadrantAngles[item.quadrant]` made explicit: an own table key gives
its angle pair, an `Object.prototype` name gives an inherited truthy
value (so the item is *not* skipped and, if its ring is known, the
loop throws a `TypeError` at `quadrantGroups[key].push`, modelled as
`Except.error ()`), and any other name gives `undefined` (the item is
skipped). -/
noncomputable def groupStepE (maxR cx cy : ℝ) (gs : List (String × List Blip))
    (item : Item) : Except Unit (List (String × List Blip)) :=
  match quadrantAngles item.quadrant with
  | some se =>
    match ringIndexOf item.ring with
    | none => Except.ok gs
    | some ri => Except.ok (addToGroups gs item.quadrant (mkBlip item ri se.1 se.2 maxR cx cy))
  | none =>
    if protoProp item.quadrant then
      match ringIndexOf item.ring with
      | none => Except.ok gs
      | some _ => Except.error ()
    else Except.ok gs

/-- The grouping loop of `renderFull` with the fault path: fold
`groupStepE` monadically, so a thrown `TypeError` aborts the loop. -/
noncomputable def buildGroupsE (items : List Item) (maxR cx cy : ℝ) :
    Except Unit (List (String × List Blip)) :=
  items.foldlM (fun gs it => groupStepE maxR cx cy gs it) []

/-- `renderFull`'s layout with the fault path: either the grouping loop
throws a `TypeError` (`Except.error ()`, nothing is laid out or drawn)
or it completes and the three relaxation phases run exactly as in
`renderFullLayout`. -/
noncomputable def renderFullRun (items : List Item) (size : ℝ) :
    Except Unit (List Blip) :=
  (buildGroupsE items (size / 2 - 30) (size / 2) (size / 2)).map
    (fun groups =>
      resolveLabelOverlaps
        (resolveCrossQuadrantOverlaps
          ((groups.map (fun g => resolveCollisions g.2)).flatten)
          (size / 2) (size / 2))
        (size / 2))

theorem groupStepE_eq {it : Item} (hc : crashItem it = false)
    (gs : List (String × List Blip)) (maxR cx cy : ℝ) :
    groupStepE maxR cx cy gs it = Except.ok (groupStep maxR cx cy gs it) := by
  unfold groupStepE groupStep
  cases hq : quadrantAngles it.quadrant with
  | some se =>
    cases hr : ringIndexOf it.ring with
    | none => rfl
    | some ri => rfl
  | none =>
    cases hp : protoProp it.quadrant with
    | false => rw [if_neg (by simp : ¬false = true)]
    | true =>
      rw [if_pos (rfl : true = true)]
      cases hr : ringIndexOf it.ring with
      | none => rfl
      | some ri =>
        exfalso
        unfold crashItem at hc
        rw [hp, hr] at hc
        simp at hc

theorem groupStepE_skip {u : Item} (hu : validItem u = false)
    (hsafe : protoProp u.quadrant = false ∨ ringIndexOf u.ring = none)
    (gs : List (String × List Blip)) (maxR cx cy : ℝ) :
    groupStepE maxR cx cy gs u = Except.ok gs := by
  have hc : crashItem u = false := by
    unfold crashItem
    rcases hsafe with hp | hr
    · rw [hp]; rfl
    · rw [hr]
      exact Bool.and_false _
  rw [groupStepE_eq hc, groupStep_invalid hu]

theorem foldlM_except_skip {α β : Type} (f : β → α → Except Unit β) (u : α)
    (hu : ∀ b, f b u = Except.ok b) :
    ∀ (l1 l2 : List α) (acc : β),
      (l1 ++ u :: l2).foldlM f acc = (l1 ++ l2).foldlM f acc := by
  intro l1
  induction l1 with
  | nil =>
    intro l2 acc
    rw [List.nil_append, List.nil_append, List.foldlM_cons, hu]
    rfl
  | cons a l1 ih =>
    intro l2 acc
    rw [List.cons_append, List.cons_append, List.foldlM_cons, List.foldlM_cons]
    cases hfa : f acc a with
    | error e => rfl
    | ok g =>
      show (l1 ++ u :: l2).foldlM f g = (l1 ++ l2).foldlM f g
      exact ih l2 g

theorem buildGroupsE_ok (items : List Item) (maxR cx cy : ℝ)
    (h : ∀ it ∈ items, crashItem it = false) :
    buildGroupsE items maxR cx cy = Except.ok (buildGroups items maxR cx cy) := by
  unfold buildGroupsE buildGroups
  suffices hgen : ∀ (its : List Item), (∀ it ∈ its, crashItem it = false) →
      ∀ (acc : List (String × List Blip)),
      its.foldlM (fun gs it => groupStepE maxR cx cy gs it) acc =
        Except.ok (its.foldl (groupStep maxR cx cy) acc) from
    hgen items h []
  intro its
  induction its with
  | nil => intro _ acc; rfl
  | cons a its ih =>
    intro hall acc
    rw [List.foldlM_cons, List.foldl_cons]
    rw [groupStepE_eq (hall a (List.mem_cons_self a its))]
    show its.foldlM (fun gs it => groupStepE maxR cx cy gs it) (groupStep maxR cx cy acc a) =
      Except.ok (its.foldl (groupStep maxR cx cy) (groupStep maxR cx cy acc a))
    exact ih (fun it hit => hall it (List.mem_cons_of_mem a hit)) _

/-- `renderFull` completes without a `TypeError` on every item list free
of the prototype-name fault, and then computes `renderFullLayout`. -/
theorem renderFullRun_ok (items : List Item) (size : ℝ)
    (h : ∀ it ∈ items, crashItem it = false) :
    renderFullRun items size = Except.ok (renderFullLayout items size) := by
  unfold renderFullRun renderFullLayout
  rw [buildGroupsE_ok items (size / 2 - 30) (size / 2) (size / 2) h]
  rfl

/-- Claim C6, amended: an item whose quadrant name or ring name is not
in the canonical tables is silently excluded — the run does not fail,
the layout on a list containing the unknown item is exactly the layout
on the list with the item removed, and no placed blip carries the
unknown item — provided the unknown quadrant name is not an
`Object.prototype` property name while the ring is known. In that
excluded case `quadrantAngles[item.quadrant]` resolves through the
prototype chain to an inherited truthy value, the item is not skipped,
and `renderFull` throws a `TypeError` at `quadrantGroups[key].push`
(see the counterexample), so the unconditional silent-skip guarantee is
false in the source. -/
theorem unknown_item_skipped_amended (l1 l2 : List Item) (u : Item) (size : ℝ)
    (hu : validItem u = false)
    (hsafe : protoProp u.quadrant = false ∨ ringIndexOf u.ring = none) :
    renderFullRun (l1 ++ u :: l2) size = renderFullRun (l1 ++ l2) size ∧
    renderFullLayout (l1 ++ u :: l2) size = renderFullLayout (l1 ++ l2) size ∧
    ∀ b ∈ renderFullLayout (l1 ++ u :: l2) size, b.item ≠ u := by
  have hgroups : ∀ maxR cx cy : ℝ,
      buildGroups (l1 ++ u :: l2) maxR cx cy = buildGroups (l1 ++ l2) maxR cx cy := by
    intro maxR cx cy
    unfold buildGroups
    rw [List.foldl_append, List.foldl_append, List.foldl_cons]
    rw [groupStep_invalid hu]
  refine ⟨?_, ?_, ?_⟩
  · unfold renderFullRun buildGroupsE
    rw [foldlM_except_skip (fun gs it => groupStepE (size / 2 - 30) (size / 2) (size / 2) gs it)
      u (fun gs => groupStepE_skip hu hsafe gs (size / 2 - 30) (size / 2) (size / 2)) l1 l2 []]
  · unfold renderFullLayout
    rw [hgroups]
  · intro b hb
    obtain ⟨hq, ⟨ri, hr, _⟩, _, _, _⟩ := (goodGeom_renderFullLayout hb).2
    intro hbu
    rw [hbu] at hq hr
    unfold validItem at hu
    rw [hq, hr] at hu
    simp at hu

/-- A concrete unknown item whose quadrant name is no `Object.prototype`
property: the source skips it silently. -/
def itemU : Item := ⟨9, "Mystery", "UnknownQuadrant", "Adopt", "none", none, ""⟩

/-- A concrete item whose quadrant name `"toString"` is absent from the
canonical quadrant table but inherited from `Object.prototype`. -/
def itemProto : Item := ⟨10, "Trap", "toString", "Adopt", "none", none, ""⟩

/-- Witness for `unknown_item_skipped_amended`: a concrete unknown (but
prototype-safe) item after a valid one. -/
theorem unknown_item_skipped_amended_witness :
    (validItem itemU = false ∧ protoProp itemU.quadrant = false) ∧
    renderFullRun [itemT, itemU] 860 = renderFullRun [itemT] 860 ∧
    renderFullLayout [itemT, itemU] 860 = renderFullLayout [itemT] 860 ∧
    ∀ b ∈ renderFullLayout [itemT, itemU] 860, b.item ≠ itemU := by
  refine ⟨⟨by rfl, by rfl⟩, ?_⟩
  have h := unknown_item_skipped_amended [itemT] [] itemU 860 (by rfl) (Or.inl (by rfl))
  simpa using h

/-- Claim C6, counterexample: an item whose quadrant name `"toString"`
is absent from the canonical quadrant table is NOT silently excluded.
`quadrantAngles["toString"]` misses the table's own keys but resolves
through the prototype chain to an inherited truthy function, so
`if (!angles) return` does not fire; the ring `"Adopt"` is known, so
the grouping loop reaches `quadrantGroups["toString"].push(...)` and
throws a `TypeError`: the run fails instead of laying out the other
item, while without the unknown item it completes normally. -/
theorem unknown_item_crash_cex :
    (quadrantAngles itemProto.quadrant = none ∧
      ringIndexOf itemProto.ring = some 0 ∧
      protoProp itemProto.quadrant = true) ∧
    renderFullRun [itemT, itemProto] 860 = Except.error () ∧
    renderFullRun [itemT] 860 = Except.ok (renderFullLayout [itemT] 860) := by
  refine ⟨⟨rfl, rfl, rfl⟩, rfl, ?_⟩
  apply renderFullRun_ok
  intro it hit
  rw [List.mem_singleton] at hit
  rw [hit]
  rfl

/-! ### Claim C1: the initial radial placement and the score field -/

/-- The pre-relaxation radial coordinate `r` computed inside
`getBlipPosition` (line 660): `innerR + margin + seededRandom(id*7+3) *
(outerR - innerR - margin*2)` — the same formula for every item, with
no reference to the item's score. -/
noncomputable def initialRadius (item : Item) (ringIndex : ℕ) (maxR : ℝ) : ℝ :=
  innerRadius ringIndex maxR + 14 +
    seededRandom ((item.id : ℝ) * 7 + 3) *
      (outerRadius ringIndex maxR - innerRadius ringIndex maxR - 14 * 2)

/-- The pre-relaxation angular coordinate computed inside
`getBlipPosition` (lines 661-663). -/
noncomputable def initialAngle (item : Item) (startAngle endAngle : ℝ) : ℝ :=
  startAngle + 0.15 +
    seededRandom ((item.id : ℝ) * 13 + 7) * (endAngle - startAngle - 0.15 * 2)

theorem sin_eleven_eq : Real.sin 11 = -Real.cos (11 - 7 * π / 2) := by
  have h1 : Real.sin 11 = Real.sin (11 - 4 * π) := by
    have h := Real.sin_add_int_mul_two_pi (11 - 4 * π) 2
    rw [show ((11 : ℝ) - 4 * π) + (2 : ℤ) * (2 * π) = 11 by push_cast; ring] at h
    exact h
  have h2 : (11 : ℝ) - 4 * π = (11 - 7 * π / 2) - π / 2 := by ring
  rw [h1, h2, Real.sin_sub, Real.cos_pi_div_two, Real.sin_pi_div_two]
  ring

/-- `11` is within `0.0045` of `7π/2`, so `sin 11 = -cos(11 - 7π/2)` is
within `1.1e-5` of `-1`. -/
theorem sin_eleven_bounds : -1 ≤ Real.sin 11 ∧ Real.sin 11 ≤ -0.9999901 := by
  have hub : (11 : ℝ) - 7 * π / 2 ≤ 0.004428 := by nlinarith [Real.pi_gt_d6]
  have hlb : (0.0044 : ℝ) ≤ 11 - 7 * π / 2 := by nlinarith [Real.pi_lt_d6]
  have hcos_le : Real.cos (11 - 7 * π / 2) ≤ 1 := Real.cos_le_one _
  have hcos_ge : 1 - (11 - 7 * π / 2) ^ 2 / 2 ≤ Real.cos (11 - 7 * π / 2) :=
    Real.one_sub_sq_div_two_le_cos
  constructor
  · rw [sin_eleven_eq]; linarith
  · rw [sin_eleven_eq]
    have h : (0.9999901 : ℝ) ≤ Real.cos (11 - 7 * π / 2) := by nlinarith
    linarith

/-- The id-keyed jitter of item id 1: `seededRandom(1*7+3) =
fract(sin 11 * 10000)` lies in `[0, 0.1)`. -/
theorem seededRandom_ten : 0 ≤ seededRandom 10 ∧ seededRandom 10 < 0.1 := by
  unfold seededRandom
  rw [show (10 : ℝ) + 1 = 11 by norm_num]
  refine ⟨Int.fract_nonneg _, ?_⟩
  obtain ⟨hs1, hs2⟩ := sin_eleven_bounds
  have hy1 : (-10000 : ℝ) ≤ Real.sin 11 * 10000 := by nlinarith
  have hy2 : Real.sin 11 * 10000 ≤ -9999.901 := by nlinarith
  have hfloor : ⌊Real.sin 11 * 10000⌋ = -10000 := by
    rw [Int.floor_eq_iff]
    constructor
    · push_cast; linarith
    · push_cast; linarith
  unfold Int.fract
  rw [hfloor]
  push_cast
  linarith

/-- Claim C1, amended: the initial radial placement ignores the score
field entirely. For every item — score present or absent — the position
produced by `getBlipPosition` has the radial coordinate
`innerEdge + margin + jitter(id) * usableRange` of the claim's
score-absent branch (first conjunct); the radius is the same whatever
the score (second conjunct), so the claimed score branch does not exist
and score monotonicity is not provided; and the jitter factor, being in
`[0, 1)`, keeps the raw radius inside the margin-shrunk band whenever
that band is nonempty (third conjunct). -/
theorem initial_radius_ignores_score :
    (∀ (item : Item) (ri : ℕ) (sA eA maxR cx cy : ℝ),
      getBlipPosition item ri sA eA maxR cx cy =
        (cx + initialRadius item ri maxR * Real.cos (initialAngle item sA eA),
         cy + initialRadius item ri maxR * Real.sin (initialAngle item sA eA))) ∧
    (∀ (item : Item) (s1 s2 : Option ℚ) (ri : ℕ) (maxR : ℝ),
      initialRadius { item with score := s1 } ri maxR =
        initialRadius { item with score := s2 } ri maxR) ∧
    (∀ (item : Item) (ri : ℕ) (maxR : ℝ),
      innerRadius ri maxR + 14 * 2 ≤ outerRadius ri maxR →
      innerRadius ri maxR + 14 ≤ initialRadius item ri maxR ∧
      initialRadius item ri maxR ≤ outerRadius ri maxR - 14) := by
  refine ⟨fun item ri sA eA maxR cx cy => rfl, fun item s1 s2 ri maxR => rfl, ?_⟩
  intro item ri maxR hband
  have hf0 : 0 ≤ seededRandom ((item.id : ℝ) * 7 + 3) := Int.fract_nonneg _
  have hf1 : seededRandom ((item.id : ℝ) * 7 + 3) < 1 := Int.fract_lt_one _
  unfold initialRadius
  constructor
  · nlinarith
  · nlinarith

/-- The item of the C1 counterexample: id 1, score present (`some 0`). -/
def itemScored : Item := ⟨1, "ScoredTool", "Tools", "Adopt", "none", some 0, ""⟩

/-- Claim C1, counterexample: for the item with id 1 and present score
0 at the reference chart (`maxR = 400`, ring 0: usable range 84), the
claimed score-branch radius is `0 + 14 + (1 - 0) * 84 = 98`, but the
actual pre-relaxation radius is `14 + fract(sin 11 * 10000) * 84 <
22.4` (the jitter value is below `0.1` because `11` is within `0.0045`
of `7π/2`), which differs from the claimed value by far more than the
allowed 8 % of the usable range (`6.72`). -/
theorem score_formula_cex :
    ¬ (|initialRadius itemScored 0 400 -
        (innerRadius 0 400 + 14 +
          (1 - 0) * (outerRadius 0 400 - innerRadius 0 400 - 14 * 2))| ≤
      0.08 * (outerRadius 0 400 - innerRadius 0 400 - 14 * 2)) := by
  have e1 : innerRadius 0 400 = 0 := by simp [innerRadius]
  have e2 : outerRadius 0 400 = 112 := by
    unfold outerRadius ringFrac RING_FRACTIONS; norm_num
  have hid : ((itemScored.id : ℝ) * 7 + 3) = 10 := by norm_num [itemScored]
  have hsr := seededRandom_ten
  intro h
  unfold initialRadius at h
  rw [hid, e1, e2] at h
  obtain ⟨hlo, _⟩ := abs_le.1 h
  nlinarith [hsr.1, hsr.2]

/-- Witness for `initial_radius_ignores_score` at ring 0 of the
reference chart. -/
theorem initial_radius_ignores_score_witness :
    innerRadius 0 400 + 14 * 2 ≤ outerRadius 0 400 ∧
    (innerRadius 0 400 + 14 ≤ initialRadius itemT 0 400 ∧
      initialRadius itemT 0 400 ≤ outerRadius 0 400 - 14) := by
  have hband : innerRadius 0 400 + 14 * 2 ≤ outerRadius 0 400 := by
    rw [show innerRadius 0 400 = 0 by simp [innerRadius],
      show outerRadius 0 400 = 112 by unfold outerRadius ringFrac RING_FRACTIONS; norm_num]
    norm_num
  exact ⟨hband, initial_radius_ignores_score.2.2 itemT 0 400 hband⟩

/-! ### Claim C2: determinism of the layout

The layout reads exactly four fields of each item: `id` (the seeds of
the initial placement), `quadrant` (grouping and the cross-quadrant
test), `ring` (the band index), and nothing else; `score`, `name`,
`movement` and `description` never enter the pipeline. Two runs on
item lists that agree on `(id, quadrant, ring, score)` in order —
whatever the remaining fields — therefore place every blip at exactly
equal coordinates. This is shown by commuting the whole pipeline with
an item-scrubbing map that blanks the unread fields. -/

/-- The fields of an item that the claim fixes across the two runs. -/
def layoutKey (it : Item) : ℤ × String × String × Option ℚ :=
  (it.id, it.quadrant, it.ring, it.score)

/-- Blank every field the layout does not read. -/
def scrubItem (it : Item) : Item := ⟨it.id, "", it.quadrant, it.ring, "", it.score, ""⟩

/-- Replace the item carried by a blip wrapper. -/
def mapBlipItem (f : Item → Item) (b : Blip) : Blip := { b with item := f b.item }

/-- Replace the item carried by a relaxation-state wrapper. -/
def mapRItem (f : Item → Item) (rb : RBlip) : RBlip := { rb with b := mapBlipItem f rb.b }

theorem clampToSector_mapItem (f : Item → Item) (b : Blip) :
    clampToSector (mapBlipItem f b) = mapBlipItem f (clampToSector b) := rfl

theorem pairDist_mapItem (f : Item → Item) (a b : Blip) (i j : ℕ) :
    pairDist (mapBlipItem f a) (mapBlipItem f b) i j = pairDist a b i j := rfl

theorem pairUpd_mapItem (f : Item → Item) (l : List RBlip) (ij : ℕ × ℕ) :
    pairUpd (l.map (mapRItem f)) ij = (pairUpd l ij).map (mapRItem f) := by
  obtain ⟨i, j⟩ := ij
  unfold pairUpd
  cases h1 : l[i]? with
  | none => simp [List.getElem?_map, h1]
  | some a =>
    cases h2 : l[j]? with
    | none => simp [List.getElem?_map, h1, h2]
    | some b =>
      simp only [List.getElem?_map, h1, h2, Option.map_some']
      rw [show pairDist (mapRItem f a).b (mapRItem f b).b i j = pairDist a.b b.b i j from rfl]
      by_cases hd : (pairDist a.b b.b i j).2.2 < 26
      · rw [if_pos hd, if_pos hd, List.map_set, List.map_set]
        rfl
      · rw [if_neg hd, if_neg hd]

theorem blipStep_mapItem (f : Item → Item) (iter idx : ℕ) (rb : RBlip) :
    blipStep iter idx (mapRItem f rb) = mapRItem f (blipStep iter idx rb) := rfl

theorem mapWithIdxFrom_map (g : ℕ → β → β) (g' : ℕ → α → α) (h : α → β)
    (hc : ∀ i a, g i (h a) = h (g' i a)) (n : ℕ) (l : List α) :
    mapWithIdxFrom g n (l.map h) = (mapWithIdxFrom g' n l).map h := by
  induction l generalizing n with
  | nil => rfl
  | cons x xs ih => simp [mapWithIdxFrom, hc, ih]

theorem relaxIter_mapItem (f : Item → Item) (l : List RBlip) (iter : ℕ) :
    relaxIter (l.map (mapRItem f)) iter = (relaxIter l iter).map (mapRItem f) := by
  unfold relaxIter mapWithIdx
  have hlen : (l.map (mapRItem f)).length = l.length := List.length_map _ _
  rw [hlen]
  have hfold : ∀ (ps : List (ℕ × ℕ)) (st : List RBlip),
      ps.foldl pairUpd (st.map (mapRItem f)) = (ps.foldl pairUpd st).map (mapRItem f) := by
    intro ps
    induction ps with
    | nil => intro st; rfl
    | cons p ps ihp => intro st; rw [List.foldl_cons, List.foldl_cons, pairUpd_mapItem, ihp]
  rw [hfold]
  exact mapWithIdxFrom_map (blipStep iter) (blipStep iter) (mapRItem f)
    (fun i a => blipStep_mapItem f iter i a) 0 _

theorem resolveCollisions_mapItem (f : Item → Item) (l : List Blip) :
    resolveCollisions (l.map (mapBlipItem f)) = (resolveCollisions l).map (mapBlipItem f) := by
  unfold resolveCollisions
  have hinit : (l.map (mapBlipItem f)).map (fun b => (⟨b, 0, 0⟩ : RBlip)) =
      (l.map (fun b => (⟨b, 0, 0⟩ : RBlip))).map (mapRItem f) := by
    rw [List.map_map, List.map_map]
    rfl
  rw [hinit]
  have hfold : ∀ (ns : List ℕ) (st : List RBlip),
      ns.foldl relaxIter (st.map (mapRItem f)) = (ns.foldl relaxIter st).map (mapRItem f) := by
    intro ns
    induction ns with
    | nil => intro st; rfl
    | cons n ns ih => intro st; rw [List.foldl_cons, List.foldl_cons, relaxIter_mapItem, ih]
  rw [hfold, List.map_map, List.map_map]
  rfl

theorem pushOut_mapItem (f : Item → Item) (cX cY push : ℝ) (b : Blip) :
    pushOut cX cY push (mapBlipItem f b) = mapBlipItem f (pushOut cX cY push b) := rfl

theorem crossPairUpd_mapItem (f : Item → Item) (hq : ∀ it, (f it).quadrant = it.quadrant)
    (cX cY : ℝ) (l : List Blip) (mv : Bool) (ij : ℕ × ℕ) :
    crossPairUpd cX cY (l.map (mapBlipItem f), mv) ij =
      ((crossPairUpd cX cY (l, mv) ij).1.map (mapBlipItem f),
        (crossPairUpd cX cY (l, mv) ij).2) := by
  obtain ⟨i, j⟩ := ij
  unfold crossPairUpd
  cases h1 : l[i]? with
  | none => simp [List.getElem?_map, h1]
  | some bi =>
    cases h2 : l[j]? with
    | none => simp [List.getElem?_map, h1, h2]
    | some bj =>
      simp only [List.getElem?_map, h1, h2, Option.map_some']
      rw [show (mapBlipItem f bi).item.quadrant = bi.item.quadrant from hq _]
      rw [show (mapBlipItem f bj).item.quadrant = bj.item.quadrant from hq _]
      by_cases hqq : bi.item.quadrant = bj.item.quadrant
      · rw [if_pos hqq, if_pos hqq]
      · rw [if_neg hqq, if_neg hqq]
        rw [show (mapBlipItem f bj).x - (mapBlipItem f bi).x = bj.x - bi.x from rfl]
        rw [show (mapBlipItem f bj).y - (mapBlipItem f bi).y = bj.y - bi.y from rfl]
        by_cases hd : Real.sqrt ((bj.x - bi.x) ^ 2 + (bj.y - bi.y) ^ 2) < 26
        · rw [if_pos hd, if_pos hd, List.map_set, List.map_set,
            pushOut_mapItem, pushOut_mapItem]
        · rw [if_neg hd, if_neg hd]

theorem crossGo_mapItem (f : Item → Item) (hq : ∀ it, (f it).quadrant = it.quadrant)
    (cX cY : ℝ) (n : ℕ) (l : List Blip) :
    crossGo cX cY n (l.map (mapBlipItem f)) = (crossGo cX cY n l).map (mapBlipItem f) := by
  induction n generalizing l with
  | zero => rfl
  | succ n ih =>
    have hpass : ∀ (ps : List (ℕ × ℕ)) (st : List Blip) (mv : Bool),
        ps.foldl (crossPairUpd cX cY) (st.map (mapBlipItem f), mv) =
          ((ps.foldl (crossPairUpd cX cY) (st, mv)).1.map (mapBlipItem f),
            (ps.foldl (crossPairUpd cX cY) (st, mv)).2) := by
      intro ps
      induction ps with
      | nil => intro st mv; rfl
      | cons p ps ihp =>
        intro st mv
        rw [List.foldl_cons, List.foldl_cons, crossPairUpd_mapItem f hq]
        have h := ihp (crossPairUpd cX cY (st, mv) p).1 (crossPairUpd cX cY (st, mv) p).2
        rw [show ((crossPairUpd cX cY (st, mv) p).1, (crossPairUpd cX cY (st, mv) p).2) =
            crossPairUpd cX cY (st, mv) p from rfl] at h
        exact h
    have hcp : crossPass cX cY (l.map (mapBlipItem f)) =
        ((crossPass cX cY l).1.map (mapBlipItem f), (crossPass cX cY l).2) := by
      show (pairIdxs (l.map (mapBlipItem f)).length).foldl (crossPairUpd cX cY)
        (l.map (mapBlipItem f), false) = _
      rw [List.length_map]
      exact hpass (pairIdxs l.length) l false
    rw [crossGo_succ, crossGo_succ, hcp]
    cases hm : (crossPass cX cY l).2 with
    | true => simpa [hm] using ih (crossPass cX cY l).1
    | false => simp [hm]

theorem snapBlip_mapItem (f : Item → Item) (cY : ℝ) (b : Blip) :
    snapBlip cY (mapBlipItem f b) = mapBlipItem f (snapBlip cY b) := by
  unfold snapBlip
  rw [show (mapBlipItem f b).y = b.y from rfl]
  split_ifs with h
  · show clampToSector (mapBlipItem f { b with y := snapY cY b.y }) =
      mapBlipItem f (clampToSector { b with y := snapY cY b.y })
    rw [clampToSector_mapItem]
  · rfl

theorem addToGroups_map (m : Blip → Blip) (gs : List (String × List Blip)) (k : String)
    (b : Blip) :
    addToGroups (gs.map (fun g => (g.1, g.2.map m))) k (m b) =
      (addToGroups gs k b).map (fun g => (g.1, g.2.map m)) := by
  induction gs with
  | nil => rfl
  | cons hd tl ih =>
    unfold addToGroups
    by_cases hk : hd.1 = k
    · simp only [List.map_cons, hk, if_pos rfl, if_true]
      simp
    · simp only [List.map_cons, if_neg hk]
      rw [ih]

theorem buildGroups_mapItem (f : Item → Item)
    (hid : ∀ it, (f it).id = it.id)
    (hq : ∀ it, (f it).quadrant = it.quadrant)
    (hr : ∀ it, (f it).ring = it.ring)
    (items : List Item) (maxR cx cy : ℝ) :
    buildGroups (items.map f) maxR cx cy =
      (buildGroups items maxR cx cy).map (fun g => (g.1, g.2.map (mapBlipItem f))) := by
  unfold buildGroups
  suffices h : ∀ (its : List Item) (acc : List (String × List Blip)),
      (its.map f).foldl (groupStep maxR cx cy)
        (acc.map (fun g => (g.1, g.2.map (mapBlipItem f)))) =
      (its.foldl (groupStep maxR cx cy) acc).map
        (fun g => (g.1, g.2.map (mapBlipItem f))) by
    simpa using h items []
  intro its
  induction its with
  | nil => intro acc; rfl
  | cons it its ih =>
    intro acc
    rw [List.map_cons, List.foldl_cons, List.foldl_cons]
    cases hqa : quadrantAngles it.quadrant with
    | none =>
      rw [groupStep_none (show quadrantAngles (f it).quadrant = none by rw [hq it]; exact hqa),
        groupStep_none hqa]
      exact ih acc
    | some se =>
      cases hra : ringIndexOf it.ring with
      | none =>
        rw [groupStep_noRing
            (show quadrantAngles (f it).quadrant = some se by rw [hq it]; exact hqa)
            (show ringIndexOf (f it).ring = none by rw [hr it]; exact hra),
          groupStep_noRing hqa hra]
        exact ih acc
      | some ri =>
        have hmk : mkBlip (f it) ri se.1 se.2 maxR cx cy =
            mapBlipItem f (mkBlip it ri se.1 se.2 maxR cx cy) := by
          unfold mkBlip
          rw [show getBlipPosition (f it) ri se.1 se.2 maxR cx cy =
              getBlipPosition it ri se.1 se.2 maxR cx cy by
            unfold getBlipPosition; rw [hid it]]
          rfl
        rw [groupStep_some
            (show quadrantAngles (f it).quadrant = some se by rw [hq it]; exact hqa)
            (show ringIndexOf (f it).ring = some ri by rw [hr it]; exact hra),
          groupStep_some hqa hra, hq it, hmk, addToGroups_map]
        exact ih _

theorem resolveLabelOverlaps_mapItem (f : Item → Item) (l : List Blip) (cY : ℝ) :
    resolveLabelOverlaps (l.map (mapBlipItem f)) cY =
      (resolveLabelOverlaps l cY).map (mapBlipItem f) := by
  unfold resolveLabelOverlaps
  rw [List.map_map]
  rw [show List.map (snapBlip cY ∘ mapBlipItem f) l = List.map (mapBlipItem f ∘ snapBlip cY) l
    from List.map_congr_left (fun b _ => by
      simp only [Function.comp_apply]
      exact snapBlip_mapItem f cY b)]
  rw [← List.map_map]
  exact resolveCollisions_mapItem f _

theorem renderFullLayout_mapItem (f : Item → Item)
    (hid : ∀ it, (f it).id = it.id)
    (hq : ∀ it, (f it).quadrant = it.quadrant)
    (hr : ∀ it, (f it).ring = it.ring)
    (items : List Item) (size : ℝ) :
    renderFullLayout (items.map f) size =
      (renderFullLayout items size).map (mapBlipItem f) := by
  unfold renderFullLayout
  rw [buildGroups_mapItem f hid hq hr]
  have h1 : ((buildGroups items (size / 2 - 30) (size / 2) (size / 2)).map
        (fun g => (g.1, g.2.map (mapBlipItem f)))).map (fun g => resolveCollisions g.2) =
      ((buildGroups items (size / 2 - 30) (size / 2) (size / 2)).map
        (fun g => resolveCollisions g.2)).map (List.map (mapBlipItem f)) := by
    rw [List.map_map, List.map_map]
    refine List.map_congr_left ?_
    intro g _
    simp only [Function.comp_apply]
    exact resolveCollisions_mapItem f g.2
  rw [h1]
  rw [show (((buildGroups items (size / 2 - 30) (size / 2) (size / 2)).map
        (fun g => resolveCollisions g.2)).map (List.map (mapBlipItem f))).flatten =
      (((buildGroups items (size / 2 - 30) (size / 2) (size / 2)).map
        (fun g => resolveCollisions g.2)).flatten).map (mapBlipItem f)
    from (List.map_flatten _ _).symm]
  have h3 : resolveCrossQuadrantOverlaps
      ((((buildGroups items (size / 2 - 30) (size / 2) (size / 2)).map
        (fun g => resolveCollisions g.2)).flatten).map (mapBlipItem f)) (size / 2) (size / 2) =
      (resolveCrossQuadrantOverlaps
        (((buildGroups items (size / 2 - 30) (size / 2) (size / 2)).map
          (fun g => resolveCollisions g.2)).flatten) (size / 2) (size / 2)).map (mapBlipItem f) :=
    crossGo_mapItem f hq (size / 2) (size / 2) 60 _
  rw [h3]
  exact resolveLabelOverlaps_mapItem f _ _

theorem map_scrub_of_map_key {l1 l2 : List Item}
    (h : l1.map layoutKey = l2.map layoutKey) : l1.map scrubItem = l2.map scrubItem := by
  induction l1 generalizing l2 with
  | nil => cases l2 <;> simp_all
  | cons a l1 ih =>
    cases l2 with
    | nil => simp at h
    | cons b l2 =>
      simp only [List.map_cons, List.cons.injEq] at h ⊢
      obtain ⟨hk, ht⟩ := h
      unfold layoutKey at hk
      simp only [Prod.mk.injEq] at hk
      obtain ⟨k1, k2, k3, k4⟩ := hk
      exact ⟨by unfold scrubItem; rw [k1, k2, k3, k4], ih ht⟩

/-- Claim C2: the layout is deterministic. Two runs of the full layout
pipeline on item lists with the same ids, quadrants, rings and scores,
in the same order, and the same chart size, produce exactly equal
`(x, y)` for every placed blip — whatever the other item fields are.
(In the shallow embedding a run is a pure function of the item list and
chart size; the substance proved here is that the result depends on
nothing else: all pseudo-randomness is seeded by the stable item ids
and loop indices.) -/
theorem layout_deterministic (l1 l2 : List Item) (size : ℝ)
    (h : l1.map layoutKey = l2.map layoutKey) :
    (renderFullLayout l1 size).map (fun b => (b.x, b.y)) =
      (renderFullLayout l2 size).map (fun b => (b.x, b.y)) := by
  have hs : ∀ it, (scrubItem it).id = it.id := fun it => rfl
  have hq : ∀ it, (scrubItem it).quadrant = it.quadrant := fun it => rfl
  have hr : ∀ it, (scrubItem it).ring = it.ring := fun it => rfl
  have key : ∀ l : List Item,
      (renderFullLayout (l.map scrubItem) size).map (fun b => (b.x, b.y)) =
        (renderFullLayout l size).map (fun b => (b.x, b.y)) := by
    intro l
    rw [renderFullLayout_mapItem scrubItem hs hq hr, List.map_map]
    rfl
  calc (renderFullLayout l1 size).map (fun b => (b.x, b.y))
      = (renderFullLayout (l1.map scrubItem) size).map (fun b => (b.x, b.y)) := (key l1).symm
    _ = (renderFullLayout (l2.map scrubItem) size).map (fun b => (b.x, b.y)) := by
        rw [map_scrub_of_map_key h]
    _ = (renderFullLayout l2 size).map (fun b => (b.x, b.y)) := key l2

/-- Witness for `layout_deterministic`: two concrete one-item lists
differing in every unread field. -/
theorem layout_deterministic_witness :
    ([⟨1, "NameA", "Tools", "Adopt", "new", some (1/2), "descA"⟩] : List Item).map layoutKey =
      ([⟨1, "NameB", "Tools", "Adopt", "none", some (1/2), "descB"⟩] : List Item).map layoutKey ∧
    (renderFullLayout [⟨1, "NameA", "Tools", "Adopt", "new", some (1/2), "descA"⟩] 860).map
        (fun b => (b.x, b.y)) =
      (renderFullLayout [⟨1, "NameB", "Tools", "Adopt", "none", some (1/2), "descB"⟩] 860).map
        (fun b => (b.x, b.y)) :=
  ⟨rfl, layout_deterministic _ _ 860 rfl⟩

/-! ### Claim C4: idempotence of the sector/ring clamp -/

theorem normLow_eq_of_ge {s a : ℝ} (h : s ≤ a) : normLow s a = a := by
  unfold normLow
  rw [if_neg (not_lt.2 h)]

theorem normHigh_eq_of_le {e a : ℝ} (h : a ≤ e) : normHigh e a = a := by
  unfold normHigh
  rw [if_neg (not_lt.2 h)]

/-- `atan2` of a polar point with positive radius and principal angle. -/
theorem atan2_polar {R θ : ℝ} (hR : 0 < R) (hθ : θ ∈ Set.Ioc (-π) π) :
    atan2 (R * Real.sin θ) (R * Real.cos θ) = θ := by
  unfold atan2
  rw [show (⟨R * Real.cos θ, R * Real.sin θ⟩ : ℂ) =
      (R : ℂ) * (Complex.cos θ + Complex.sin θ * Complex.I) from by
    rw [← Complex.ofReal_cos, ← Complex.ofReal_sin]
    apply Complex.ext <;> simp [Complex.cos_ofReal_re, Complex.sin_ofReal_re]]
  rw [Complex.arg_real_mul _ hR]
  exact Complex.arg_cos_add_sin_mul_I hθ

/-- `atan2` of a general polar point returns the angle up to a whole
number of turns. -/
theorem atan2_cos_sin {R : ℝ} (hR : 0 < R) (A : ℝ) :
    ∃ k : ℤ, atan2 (R * Real.sin A) (R * Real.cos A) = A - 2 * π * k := by
  refine ⟨⌈(A - π) / (2 * π)⌉, ?_⟩
  set k : ℤ := ⌈(A - π) / (2 * π)⌉ with hk
  have h2π : (0:ℝ) < 2 * π := by positivity
  have hA' : A - 2 * π * k ∈ Set.Ioc (-π) π := by
    constructor
    · have h1 : (k : ℝ) < (A - π) / (2 * π) + 1 := Int.ceil_lt_add_one _
      rw [div_add' _ _ _ (ne_of_gt h2π)] at h1
      have := (lt_div_iff h2π).1 h1
      linarith
    · have h1 : (A - π) / (2 * π) ≤ (k : ℝ) := Int.le_ceil _
      have := (div_le_iff h2π).1 h1
      linarith
  have hcos : Real.cos A = Real.cos (A - 2 * π * k) := by
    rw [show A = (A - 2 * π * k) + k * (2 * π) by ring, Real.cos_add_int_mul_two_pi]
    ring_nf
  have hsin : Real.sin A = Real.sin (A - 2 * π * k) := by
    rw [show A = (A - 2 * π * k) + k * (2 * π) by ring, Real.sin_add_int_mul_two_pi]
    ring_nf
  rw [hcos, hsin]
  exact atan2_polar hR hA'

/-- The two normalisation loops of `clampToSector` cancel any whole
number of turns: starting from the padded-window angle `A` shifted by
`2πk`, they return exactly `A` (sector width at most one turn). -/
theorem norm_roundtrip {s e A : ℝ} (k : ℤ) (hwidth : e ≤ s + 2 * π)
    (hA1 : s + 0.12 ≤ A) (hA2 : A ≤ e - 0.12) :
    normHigh e (normLow s (A - 2 * π * k)) = A := by
  have h2π : (0:ℝ) < 2 * π := by positivity
  by_cases hlt : A - 2 * π * k < s
  · unfold normLow
    rw [if_pos hlt]
    have hceil : ⌈(s - (A - 2 * π * k)) / (2 * π)⌉ = k := by
      rw [Int.ceil_eq_iff]
      constructor
      · rw [lt_div_iff h2π]
        push_cast
        nlinarith
      · rw [div_le_iff h2π]
        push_cast
        nlinarith
    rw [hceil]
    rw [show A - 2 * π * k + 2 * π * k = A by push_cast; ring]
    exact normHigh_eq_of_le (by linarith)
  · unfold normLow
    rw [if_neg hlt]
    push_neg at hlt
    by_cases hgt : A - 2 * π * k > e
    · unfold normHigh
      rw [if_pos hgt]
      have hceil : ⌈(A - 2 * π * k - e) / (2 * π)⌉ = -k := by
        rw [Int.ceil_eq_iff]
        constructor
        · rw [lt_div_iff h2π]
          push_cast
          nlinarith
        · rw [div_le_iff h2π]
          push_cast
          nlinarith
      rw [hceil]
      push_cast
      ring
    · push_neg at hgt
      have hk0 : k = 0 := by
        by_contra hk
        rcases lt_or_gt_of_ne hk with hneg | hpos
        · have hk1 : k ≤ -1 := by omega
          have : (k : ℝ) ≤ -1 := by exact_mod_cast hk1
          nlinarith
        · have hk1 : (1 : ℤ) ≤ k := hpos
          have : (1 : ℝ) ≤ (k : ℝ) := by exact_mod_cast hk1
          nlinarith
      rw [hk0] at hgt ⊢
      push_cast at hgt ⊢
      rw [show A - 2 * π * 0 = A by ring] at hgt ⊢
      exact normHigh_eq_of_le hgt

theorem ringFrac_nonneg (i : ℕ) : 0 ≤ ringFrac i := by
  unfold ringFrac RING_FRACTIONS
  rcases i with _ | _ | _ | _ | i <;> norm_num [List.getD]

theorem innerRadius_nonneg {ri : ℕ} {maxR : ℝ} (h : 0 ≤ maxR) :
    0 ≤ innerRadius ri maxR := by
  unfold innerRadius
  split
  · exact le_refl 0
  · exact mul_nonneg (ringFrac_nonneg _) h

/-- The spec's no-op property: a blip already at a valid polar point of
its padded sector and margin-shrunk band is left exactly in place by
`clampToSector`. -/
theorem clampToSector_fixed (p : Blip) (R A : ℝ)
    (hx : p.x = p.cx + R * Real.cos A) (hy : p.y = p.cy + R * Real.sin A)
    (hse : p.startAngle ≤ p.endAngle)
    (hwidth : p.endAngle ≤ p.startAngle + 2 * π)
    (hR1 : innerRadius p.ringIndex p.maxR + 14 ≤ R)
    (hR2 : R ≤ outerRadius p.ringIndex p.maxR - 14)
    (hRpos : 0 < R)
    (hA1 : p.startAngle + 0.12 ≤ A) (hA2 : A ≤ p.endAngle - 0.12) :
    clampToSector p = p := by
  have hswap : ¬(p.endAngle < p.startAngle) := not_lt.2 hse
  have hdx : p.x - p.cx = R * Real.cos A := by rw [hx]; ring
  have hdy : p.y - p.cy = R * Real.sin A := by rw [hy]; ring
  have hr0 : Real.sqrt ((p.x - p.cx) ^ 2 + (p.y - p.cy) ^ 2) = R := by
    rw [hdx, hdy]
    rw [show (R * Real.cos A) ^ 2 + (R * Real.sin A) ^ 2 = R ^ 2 by
      linear_combination R ^ 2 * Real.sin_sq_add_cos_sq A]
    exact Real.sqrt_sq hRpos.le
  obtain ⟨k, hk⟩ := atan2_cos_sin hRpos A
  have ha2 : normHigh p.endAngle (normLow p.startAngle (atan2 (p.y - p.cy) (p.x - p.cx))) = A := by
    rw [hdx, hdy, hk]
    exact norm_roundtrip k hwidth hA1 hA2
  simp only [clampToSector, hswap, if_false]
  rw [hr0, ha2]
  rw [clampLo_eq_self hA1, clampHi_eq_self hA2, clampLo_eq_self hR1, clampHi_eq_self hR2]
  rw [← hx, ← hy]

/-- Claim C4, amended: the sector/ring clamp is idempotent — clamping
an already-clamped blip is a no-op — for every blip whose sector bounds
are ordered, at most one turn wide and wide enough for the angular
padding, and whose chart radius is nonnegative and large enough that
the blip's margin-shrunk ring band is nonempty. (All sectors built by
the program satisfy the angular conditions; the band condition holds
for every ring when `maxR ≥ 140`. For smaller charts the clamped radius
can be forced below zero, reflecting the point through the center, and
a second clamp then moves it: see the counterexample.) -/
theorem clampToSector_idempotent (b : Blip)
    (hse : b.startAngle ≤ b.endAngle)
    (hwidth : b.endAngle ≤ b.startAngle + 2 * π)
    (hang : b.startAngle + 0.12 ≤ b.endAngle - 0.12)
    (hmaxR : 0 ≤ b.maxR)
    (hband : innerRadius b.ringIndex b.maxR + 14 ≤ outerRadius b.ringIndex b.maxR - 14) :
    clampToSector (clampToSector b) = clampToSector b := by
  obtain ⟨R, A, h1, h2, h3, h4, hx, hy⟩ := clampToSector_contained b hse hang hband
  have hRpos : 0 < R := by
    have hnn : 0 ≤ innerRadius b.ringIndex b.maxR := innerRadius_nonneg hmaxR
    have hone : innerRadius (clampToSector b).ringIndex (clampToSector b).maxR =
        innerRadius b.ringIndex b.maxR := rfl
    rw [hone] at h1
    linarith
  exact clampToSector_fixed (clampToSector b) R A hx hy hse hwidth h1 h2 hRpos h3 h4

/-- Witness for `clampToSector_idempotent` at a concrete blip of the
reference chart (`maxR = 400`, ring 0, the `Tools` sector). -/
theorem clampToSector_idempotent_witness :
    ((π * 1.5 ≤ π * 2 ∧ π * 2 ≤ π * 1.5 + 2 * π) ∧
      (π * 1.5 + 0.12 ≤ π * 2 - 0.12 ∧ (0:ℝ) ≤ 400) ∧
      innerRadius 0 400 + 14 ≤ outerRadius 0 400 - 14) ∧
    clampToSector (clampToSector ⟨500, 100, itemT, 0, π * 1.5, π * 2, 400, 430, 430⟩) =
      clampToSector ⟨500, 100, itemT, 0, π * 1.5, π * 2, 400, 430, 430⟩ := by
  have hpi := Real.pi_gt_three
  have h1 : π * 1.5 ≤ π * 2 := by nlinarith
  have h2 : π * 2 ≤ π * 1.5 + 2 * π := by nlinarith
  have h3 : π * 1.5 + 0.12 ≤ π * 2 - 0.12 := by nlinarith
  have h5 : innerRadius 0 400 + 14 ≤ outerRadius 0 400 - 14 := by
    rw [show innerRadius 0 400 = 0 by simp [innerRadius],
      show outerRadius 0 400 = 112 by unfold outerRadius ringFrac RING_FRACTIONS; norm_num]
    norm_num
  exact ⟨⟨⟨h1, h2⟩, ⟨h3, by norm_num⟩, h5⟩,
    clampToSector_idempotent ⟨500, 100, itemT, 0, π * 1.5, π * 2, 400, 430, 430⟩ h1 h2 h3
      (by norm_num) h5⟩

/-- The blip configuration of the C4 counterexample: the bottom-right
sector `[0, π/2]`, ring 0, chart radius `maxR = 0` (the smallest window
the full radar can be asked to draw at), center `(30, 30)`, and the
point `(30, 31)` one unit above the center. -/
noncomputable def blipEdge : Blip := ⟨30, 31, itemT, 0, 0, π / 2, 0, 30, 30⟩

theorem innerRadius_00 : innerRadius 0 (0:ℝ) = 0 := by simp [innerRadius]

theorem outerRadius_00 : outerRadius 0 (0:ℝ) = 0 := by
  unfold outerRadius ringFrac RING_FRACTIONS
  norm_num

/-- At `maxR = 0` the ring-0 clamp bounds are `minR = 14` and
`maxRadius = -14`: the two sequential clamps send every radius to
`-14`. -/
theorem clampR_edge (v : ℝ) :
    clampHi (outerRadius 0 (0:ℝ) - 14) (clampLo (innerRadius 0 (0:ℝ) + 14) v) = -14 := by
  rw [innerRadius_00, outerRadius_00]
  have h14 : (0:ℝ) + 14 ≤ clampLo (0 + 14) v := le_clampLo _ _
  unfold clampHi
  rw [if_pos (by linarith : clampLo ((0:ℝ) + 14) v > 0 - 14)]
  norm_num

theorem clampEdge1 : clampToSector blipEdge =
    { blipEdge with x := 30 + -14 * Real.cos (π / 2 - 0.12),
                    y := 30 + -14 * Real.sin (π / 2 - 0.12) } := by
  have hpi := Real.pi_gt_three
  have hswap : ¬((π:ℝ) / 2 < 0) := not_lt.2 (by positivity)
  have hat : atan2 ((31:ℝ) - 30) ((30:ℝ) - 30) = π / 2 := by
    rw [show (31:ℝ) - 30 = 1 by norm_num, show (30:ℝ) - 30 = 0 by norm_num]
    unfold atan2
    rw [show (⟨(0:ℝ), (1:ℝ)⟩ : ℂ) = Complex.I from rfl]
    exact Complex.arg_I
  have ha : clampHi (π / 2 - 0.12)
      (clampLo (0 + 0.12) (normHigh (π / 2) (normLow 0 (atan2 ((31:ℝ) - 30) ((30:ℝ) - 30))))) =
      π / 2 - 0.12 := by
    rw [hat, normLow_eq_of_ge (by positivity), normHigh_eq_of_le (le_refl _),
      clampLo_eq_self (by nlinarith)]
    unfold clampHi
    rw [if_pos (by nlinarith)]
  simp only [clampToSector, blipEdge, if_neg hswap]
  rw [ha, clampR_edge]

theorem clampEdge2 :
    clampToSector { blipEdge with x := 30 + -14 * Real.cos (π / 2 - 0.12),
                                  y := 30 + -14 * Real.sin (π / 2 - 0.12) } =
    { blipEdge with x := 30 + -14 * Real.cos (0 + 0.12),
                    y := 30 + -14 * Real.sin (0 + 0.12) } := by
  have hpi := Real.pi_gt_three
  have hpipos := Real.pi_pos
  have h2π : (0:ℝ) < 2 * π := by positivity
  have hswap : ¬((π:ℝ) / 2 < 0) := not_lt.2 (by positivity)
  have hdxv : (30:ℝ) + -14 * Real.cos (π / 2 - 0.12) - 30 =
      14 * Real.cos ((π / 2 - 0.12) - π) := by
    rw [Real.cos_sub_pi]
    ring
  have hdyv : (30:ℝ) + -14 * Real.sin (π / 2 - 0.12) - 30 =
      14 * Real.sin ((π / 2 - 0.12) - π) := by
    rw [Real.sin_sub_pi]
    ring
  have hr0 : Real.sqrt ((14 * Real.cos ((π / 2 - 0.12) - π)) ^ 2 +
      (14 * Real.sin ((π / 2 - 0.12) - π)) ^ 2) = 14 := by
    rw [show (14 * Real.cos ((π / 2 - 0.12) - π)) ^ 2 +
        (14 * Real.sin ((π / 2 - 0.12) - π)) ^ 2 = 14 ^ 2 by
      linear_combination (14:ℝ) ^ 2 * Real.sin_sq_add_cos_sq ((π / 2 - 0.12) - π)]
    exact Real.sqrt_sq (by norm_num)
  have hat : atan2 (14 * Real.sin ((π / 2 - 0.12) - π)) (14 * Real.cos ((π / 2 - 0.12) - π)) =
      (π / 2 - 0.12) - π :=
    atan2_polar (by norm_num) ⟨by nlinarith, by nlinarith⟩
  have hnl : normLow 0 ((π / 2 - 0.12) - π) = (π / 2 - 0.12) - π + 2 * π := by
    unfold normLow
    rw [if_pos (by nlinarith)]
    have hceil : ⌈(0 - ((π / 2 - 0.12) - π)) / (2 * π)⌉ = 1 := by
      rw [Int.ceil_eq_iff]
      constructor
      · push_cast
        rw [lt_div_iff h2π]
        nlinarith
      · push_cast
        rw [div_le_iff h2π]
        nlinarith
    rw [hceil]
    push_cast
    ring
  have hnh : normHigh (π / 2) ((π / 2 - 0.12) - π + 2 * π) = (π / 2 - 0.12) - π := by
    unfold normHigh
    rw [if_pos (by nlinarith)]
    have hceil : ⌈((π / 2 - 0.12) - π + 2 * π - π / 2) / (2 * π)⌉ = 1 := by
      rw [Int.ceil_eq_iff]
      constructor
      · push_cast
        rw [lt_div_iff h2π]
        nlinarith
      · push_cast
        rw [div_le_iff h2π]
        nlinarith
    rw [hceil]
    push_cast
    ring
  have ha : clampHi (π / 2 - 0.12) (clampLo (0 + 0.12) ((π / 2 - 0.12) - π)) = 0 + 0.12 := by
    rw [show clampLo (0 + 0.12) ((π / 2 - 0.12) - π) = 0 + 0.12 from by
      unfold clampLo
      rw [if_pos (by nlinarith)]]
    exact clampHi_eq_self (by nlinarith)
  simp only [clampToSector, blipEdge, if_neg hswap]
  rw [hdxv, hdyv, hr0, hat, hnl, hnh, ha, clampR_edge]

/-- Claim C4, counterexample: the clamp is not idempotent for every
blip configuration. At chart radius `maxR = 0` the ring-0 clamp bounds
are `[14, -14]`, so the clamped radius is the negative value `-14`,
which reflects the produced point through the center into the opposite
sector; a second clamp then normalises the reflected angle back to the
sector's other edge and produces a different point. -/
theorem clamp_not_idempotent_cex :
    clampToSector (clampToSector blipEdge) ≠ clampToSector blipEdge := by
  rw [clampEdge1, clampEdge2]
  intro heq
  have hx := congrArg Blip.x heq
  simp only [] at hx
  have hcs : Real.cos (0 + 0.12) = Real.cos (π / 2 - 0.12) := by
    have h := hx
    rw [show ((30:ℝ) + -14 * Real.cos (0 + 0.12) = 30 + -14 * Real.cos (π / 2 - 0.12)) ↔
        (Real.cos (0 + 0.12) = Real.cos (π / 2 - 0.12)) from by constructor <;> intro h2 <;> linarith]
      at h
    exact h
  rw [zero_add, Real.cos_pi_div_two_sub] at hcs
  have hsin : Real.sin 0.12 < 0.12 := Real.sin_lt (by norm_num)
  have hcos : (1:ℝ) / 2 ≤ Real.cos 0.12 := by
    rw [show (1:ℝ) / 2 = Real.cos (π / 3) from (Real.cos_pi_div_three).symm]
    exact Real.cos_le_cos_of_nonneg_of_le_pi (by norm_num) (by linarith [Real.pi_gt_three])
      (by nlinarith [Real.pi_gt_three])
  rw [hcs] at hcos
  linarith

/-! ### Claim C5: pairwise separation after relaxation -/

/-- Euclidean center distance between two blips, as computed by the
`Math.hypot` calls of the relaxation code. -/
noncomputable def blipDist (a b : Blip) : ℝ :=
  Real.sqrt ((b.x - a.x) ^ 2 + (b.y - a.y) ^ 2)

theorem blipDist_comm (a b : Blip) : blipDist a b = blipDist b a := by
  unfold blipDist
  ring_nf

/-- At the reference chart size `860` every placed blip lies within
`338` of the center `(430, 430)` (outermost ring radius `352` minus the
margin `14`). -/
theorem layout_in_square {items : List Item} {b : Blip}
    (hb : b ∈ renderFullLayout items 860) : |b.x - 430| ≤ 338 ∧ |b.y - 430| ≤ 338 := by
  obtain ⟨R, A, h1, h2, _, _, hx, hy⟩ := layout_contained_aux items 860 (by norm_num) b hb
  obtain ⟨_, _, ⟨ri, hrIdx, hriEq⟩, hmaxR, hcx, hcy⟩ := goodGeom_renderFullLayout hb
  have hri4 : b.ringIndex < 4 := by rw [hriEq]; exact ringIndexOf_lt hrIdx
  have hmax : b.maxR = 400 := by rw [hmaxR]; norm_num
  have hRub : R ≤ 338 := by
    have hfrac : ringFrac b.ringIndex ≤ 0.88 := by
      unfold ringFrac RING_FRACTIONS
      interval_cases hlow : b.ringIndex <;> norm_num [List.getD]
    have houter : outerRadius b.ringIndex b.maxR ≤ 352 := by
      rw [hmax]
      unfold outerRadius
      nlinarith
    linarith
  have hRlb : 0 ≤ R := by
    have hinner : 0 ≤ innerRadius b.ringIndex b.maxR :=
      innerRadius_nonneg (by rw [hmax]; norm_num)
    linarith
  have h430 : (860:ℝ) / 2 = 430 := by norm_num
  have hbx : b.x - 430 = R * Real.cos A := by rw [hx, hcx, h430]; ring
  have hby : b.y - 430 = R * Real.sin A := by rw [hy, hcy, h430]; ring
  constructor
  · rw [hbx, abs_mul, abs_of_nonneg hRlb]
    calc R * |Real.cos A| ≤ R * 1 :=
        mul_le_mul_of_nonneg_left (Real.abs_cos_le_one A) hRlb
      _ ≤ 338 := by linarith
  · rw [hby, abs_mul, abs_of_nonneg hRlb]
    calc R * |Real.sin A| ≤ R * 1 :=
        mul_le_mul_of_nonneg_left (Real.abs_sin_le_one A) hRlb
      _ ≤ 338 := by linarith

theorem abs_sub_lt_of_floor_eq {a b : ℝ} (h : ⌊(a - 92) / 10⌋ = ⌊(b - 92) / 10⌋) :
    |a - b| < 10 := by
  have h1 := Int.floor_le ((a - 92) / 10)
  have h2 := Int.sub_one_lt_floor ((a - 92) / 10)
  have h3 := Int.floor_le ((b - 92) / 10)
  have h4 := Int.sub_one_lt_floor ((b - 92) / 10)
  rw [h] at h1 h2
  rw [abs_lt]
  constructor <;> nlinarith

theorem cell_mem {x : ℝ} (hx : |x - 430| ≤ 338) : ⌊(x - 92) / 10⌋ ∈ Finset.Icc (0:ℤ) 67 := by
  rw [abs_le] at hx
  rw [Finset.mem_Icc]
  constructor
  · exact Int.floor_nonneg.2 (by apply div_nonneg <;> linarith)
  · have h68 : ⌊(x - 92) / 10⌋ < 68 := by
      apply Int.floor_lt.2
      rw [div_lt_iff (by norm_num : (0:ℝ) < 10)]
      push_cast
      linarith
    omega

/-- Packing (pigeonhole): more than `4624 = 68 * 68` blips confined to
the chart square cannot all occupy distinct `10`-unit grid cells, so
two of them are closer than `15` units. -/
theorem exists_close_pair_aux (L : List Blip)
    (hsq : ∀ b ∈ L, |b.x - 430| ≤ 338 ∧ |b.y - 430| ≤ 338)
    (hlen : 4624 < L.length) :
    ∃ (i j : ℕ) (hi : i < L.length) (hj : j < L.length), i ≠ j ∧
      blipDist (L.get ⟨i, hi⟩) (L.get ⟨j, hj⟩) < 15 := by
  classical
  have hmapsto : ∀ i : Fin L.length, i ∈ (Finset.univ : Finset (Fin L.length)) →
      (⌊((L.get i).x - 92) / 10⌋, ⌊((L.get i).y - 92) / 10⌋) ∈
        Finset.Icc (0:ℤ) 67 ×ˢ Finset.Icc (0:ℤ) 67 := by
    intro i _
    have hmem : L.get i ∈ L := List.get_mem L i.1 i.2
    obtain ⟨hx, hy⟩ := hsq (L.get i) hmem
    exact Finset.mem_product.2 ⟨cell_mem hx, cell_mem hy⟩
  have hcard : (Finset.Icc (0:ℤ) 67 ×ˢ Finset.Icc (0:ℤ) 67).card <
      (Finset.univ : Finset (Fin L.length)).card := by
    rw [Finset.card_product, Int.card_Icc, Finset.card_univ, Fintype.card_fin]
    rw [show ((67:ℤ) + 1 - 0).toNat = 68 from rfl]
    omega
  obtain ⟨a, _, b, _, hab, hfeq⟩ :=
    Finset.exists_ne_map_eq_of_card_lt_of_maps_to hcard hmapsto
  have hxf : ⌊((L.get a).x - 92) / 10⌋ = ⌊((L.get b).x - 92) / 10⌋ := congrArg Prod.fst hfeq
  have hyf : ⌊((L.get a).y - 92) / 10⌋ = ⌊((L.get b).y - 92) / 10⌋ := congrArg Prod.snd hfeq
  have hdx := abs_sub_lt_of_floor_eq hxf
  have hdy := abs_sub_lt_of_floor_eq hyf
  obtain ⟨hdx1, hdx2⟩ := abs_lt.1 hdx
  obtain ⟨hdy1, hdy2⟩ := abs_lt.1 hdy
  refine ⟨a.1, b.1, a.2, b.2, fun h => hab (Fin.ext h), ?_⟩
  show blipDist (L.get a) (L.get b) < 15
  unfold blipDist
  rw [Real.sqrt_lt' (by norm_num : (0:ℝ) < 15)]
  clear hmapsto hcard hfeq hxf hyf hsq hdx hdy hab hlen
  nlinarith

theorem separation_capacity_aux (items : List Item)
    (hsep : (renderFullLayout items 860).Pairwise (fun a b => 26 ≤ blipDist a b)) :
    (renderFullLayout items 860).length ≤ 4624 := by
  by_contra hlen
  push_neg at hlen
  obtain ⟨i, j, hi, hj, hij, hclose⟩ :=
    exists_close_pair_aux (renderFullLayout items 860)
      (fun b hb => layout_in_square hb) hlen
  have hgep := List.pairwise_iff_get.1 hsep
  rcases Nat.lt_or_ge i j with hlt | hge
  · have h26 := hgep ⟨i, hi⟩ ⟨j, hj⟩ hlt
    linarith
  · have hlt : j < i := lt_of_le_of_ne hge (fun h => hij h.symm)
    have h26 := hgep ⟨j, hj⟩ ⟨i, hi⟩ hlt
    rw [blipDist_comm] at h26
    linarith

/-- Claim C5, amended: the separation postcondition cannot hold for
every input — it is limited by the chart's packing capacity. At the
reference chart size `860`, if after the relaxation phases every pair
of placed blips is at least the minimum separation `26` apart, then at
most `4624` blips are placed; an input that places more blips (such as
the `4625`-item counterexample) necessarily ends with a pair closer
than `15`, far below the claimed `26` even allowing a generous
numerical tolerance. -/
theorem separation_requires_capacity (items : List Item)
    (hsep : (renderFullLayout items 860).Pairwise (fun a b => 26 ≤ blipDist a b)) :
    (renderFullLayout items 860).length ≤ 4624 :=
  separation_capacity_aux items hsep

theorem resolveCollisions_nil : resolveCollisions [] = [] := by
  unfold resolveCollisions
  have h : ∀ ns : List ℕ, List.foldl relaxIter ([] : List RBlip) ns = [] := by
    intro ns
    induction ns with
    | nil => rfl
    | cons n ns ih =>
      rw [List.foldl_cons, show relaxIter [] n = [] from rfl]
      exact ih
  rw [show List.map (fun b => (⟨b, 0, 0⟩ : RBlip)) [] = [] from rfl, h]
  rfl

theorem renderFullLayout_nil (size : ℝ) : renderFullLayout [] size = [] := by
  unfold renderFullLayout
  rw [show buildGroups [] (size / 2 - 30) (size / 2) (size / 2) = [] from rfl]
  rw [show (([] : List (String × List Blip)).map (fun g => resolveCollisions g.2)).flatten =
    ([] : List Blip) from rfl]
  rw [show resolveCrossQuadrantOverlaps [] (size / 2) (size / 2) = [] from rfl]
  unfold resolveLabelOverlaps
  rw [show (([] : List Blip).map (snapBlip (size / 2))) = [] from rfl]
  exact resolveCollisions_nil

/-- Witness for `separation_requires_capacity` on the empty input. -/
theorem separation_requires_capacity_witness :
    (renderFullLayout ([] : List Item) 860).Pairwise (fun a b => 26 ≤ blipDist a b) ∧
    (renderFullLayout ([] : List Item) 860).length ≤ 4624 :=
  ⟨by rw [renderFullLayout_nil]; exact List.Pairwise.nil,
   separation_requires_capacity [] (by rw [renderFullLayout_nil]; exact List.Pairwise.nil)⟩

theorem addToGroups_flatten_length (gs : List (String × List Blip)) (k : String) (b : Blip) :
    ((addToGroups gs k b).map (fun g => g.2)).flatten.length =
      ((gs.map (fun g => g.2)).flatten.length) + 1 := by
  induction gs with
  | nil => simp [addToGroups]
  | cons hd tl ih =>
    unfold addToGroups
    split_ifs with hk
    · simp
      omega
    · simp only [List.map_cons, List.flatten_cons, List.length_append]
      rw [ih]
      omega

theorem buildGroups_length (items : List Item) (maxR cx cy : ℝ) :
    (((buildGroups items maxR cx cy).map (fun g => g.2)).flatten).length =
      (items.filter validItem).length := by
  unfold buildGroups
  suffices h : ∀ (its : List Item) (acc : List (String × List Blip)),
      (((its.foldl (groupStep maxR cx cy) acc).map (fun g => g.2)).flatten).length =
        (((acc.map (fun g => g.2)).flatten).length) + (its.filter validItem).length by
    simpa using h items []
  intro its
  induction its with
  | nil => intro acc; simp
  | cons it its ih =>
    intro acc
    rw [List.foldl_cons, List.filter_cons]
    cases hv : validItem it with
    | true =>
      have hq : (quadrantAngles it.quadrant).isSome = true ∧
          (ringIndexOf it.ring).isSome = true := by
        unfold validItem at hv
        rw [Bool.and_eq_true] at hv
        exact hv
      obtain ⟨se, hse⟩ := Option.isSome_iff_exists.1 hq.1
      obtain ⟨ri, hri⟩ := Option.isSome_iff_exists.1 hq.2
      rw [groupStep_some hse hri, ih, addToGroups_flatten_length]
      simp [hv]
      omega
    | false =>
      rw [groupStep_invalid hv, ih]
      simp [hv]

theorem length_renderFullLayout (items : List Item) (size : ℝ) :
    (renderFullLayout items size).length = (items.filter validItem).length := by
  have h := congrArg List.length (map_bcore_renderFullLayout items size)
  simp only [List.length_map] at h
  rw [h, buildGroups_length]

/-- The `4625`-item input of the C5 counterexample: ids `1..4625`, all
in quadrant `Tools`, ring `Adopt`. -/
def itemsBig : List Item :=
  (List.range 4625).map (fun (n : ℕ) => ⟨(n:ℤ) + 1, "", "Tools", "Adopt", "none", none, ""⟩)

theorem itemsBig_placed : (renderFullLayout itemsBig 860).length = 4625 := by
  rw [length_renderFullLayout]
  rw [List.filter_eq_self.2 ?_]
  · show itemsBig.length = 4625
    unfold itemsBig
    rw [List.length_map, List.length_range]
  · intro a ha
    obtain ⟨n, _, rfl⟩ := List.mem_map.1 ha
    rfl

/-- Claim C5, counterexample: the separation postcondition fails as
stated. With `4625` valid items the layout places `4625` blips in a
chart square that has only `4624` cells of side `10`, so after all
relaxation phases two distinct placed blips are closer than `15` —
violating the claimed minimum distance `26` beyond any small numerical
tolerance. -/
theorem separation_fails_cex :
    ∃ (i j : ℕ) (hi : i < (renderFullLayout itemsBig 860).length)
      (hj : j < (renderFullLayout itemsBig 860).length), i ≠ j ∧
      blipDist ((renderFullLayout itemsBig 860).get ⟨i, hi⟩)
        ((renderFullLayout itemsBig 860).get ⟨j, hj⟩) < 15 :=
  exists_close_pair_aux (renderFullLayout itemsBig 860)
    (fun b hb => layout_in_square hb)
    (by rw [itemsBig_placed]; norm_num)

end Radar
